import Mathlib

/-! Verification development for the PDF rendering core consisting of
src/text-vector.js (content tokenizer, graphics/text state machine, font
loading), src/unnamed/part_000 (the font module: font discovery, width
tables, ToUnicode CMaps, embedded program extraction) and src/image.js
(image XObject and inline image decoding plus a CTM tracker).

Modelling conventions: JS numbers are rationals, JS strings are Lean
strings (scanned as lists of characters), byte arrays are lists of
naturals below 256, JS `Map`s and objects are insertion-ordered
association lists, and a thrown JS exception is `Except.error`. The
JS regular expressions used by the sources are transcribed as explicit
left-to-right scanners with the same leftmost-match semantics. -/

namespace PdfJs

/-- Characters matched by the JS regex class for whitespace (the ASCII part,
which is all that occurs in PDF content). -/
def isJsWs (c : Char) : Bool :=
  c == ' ' || c == '\t' || c == '\n' || c == '\r' || c == '\x0b' || c == '\x0c'

def isDigitC (c : Char) : Bool := '0' ≤ c && c ≤ '9'

def isAlphaC (c : Char) : Bool := ('a' ≤ c && c ≤ 'z') || ('A' ≤ c && c ≤ 'Z')

def isAlnumC (c : Char) : Bool := isDigitC c || isAlphaC c

/-- Word characters for the regex word-boundary assertion. -/
def isWordC (c : Char) : Bool := isAlnumC c || c == '_'

def isHexC (c : Char) : Bool :=
  isDigitC c || ('a' ≤ c && c ≤ 'f') || ('A' ≤ c && c ≤ 'F')

def digitVal (c : Char) : ℕ := c.toNat - '0'.toNat

def hexDigitVal (c : Char) : ℕ :=
  if isDigitC c then digitVal c
  else if 'a' ≤ c && c ≤ 'f' then c.toNat - 'a'.toNat + 10
  else if 'A' ≤ c && c ≤ 'F' then c.toNat - 'A'.toNat + 10
  else 0

def hexVal (l : List Char) : ℕ := l.foldl (fun a c => a * 16 + hexDigitVal c) 0

def digitsVal (l : List Char) : ℕ := l.foldl (fun a c => a * 10 + digitVal c) 0

/-- Rational value of a decimal literal with optional sign, integer digits
and fraction digits (the value parseFloat gives such a literal). -/
def decValue (neg : Bool) (ip fp : List Char) : ℚ :=
  let mag : ℚ := (digitsVal ip : ℚ) + (digitsVal fp : ℚ) / ((10 : ℚ) ^ fp.length)
  if neg then -mag else mag

/-- Consume a literal at the head of the input, returning the rest. -/
def matchLit : List Char → List Char → Option (List Char)
  | [], l => some l
  | _ :: _, [] => none
  | p :: ps, c :: cs => if p = c then matchLit ps cs else none

/-- Leftmost-match driver: try the matcher at every start position, as a JS
regex search does. -/
def scanPos (f : List Char → Option α) : List Char → Option α
  | [] => f []
  | c :: t =>
    match f (c :: t) with
    | some r => some r
    | none => scanPos f t

/-- Match the regex fragment for an optionally-signed decimal number whose
fraction group needs at least one digit, returning its value and the rest. -/
def matchNumFrac (l : List Char) : Option (ℚ × List Char) :=
  let p : Bool × List Char := match l with
    | '-' :: t => (true, t)
    | _ => (false, l)
  let neg := p.1
  let l1 := p.2
  let ip := l1.takeWhile isDigitC
  let l2 := l1.dropWhile isDigitC
  if ip = [] then none else
  match l2 with
  | '.' :: l3 =>
    let fp := l3.takeWhile isDigitC
    let l4 := l3.dropWhile isDigitC
    if fp = [] then some (decValue neg ip [], l2)
    else some (decValue neg ip fp, l4)
  | _ => some (decValue neg ip [], l2)

/-- Word-boundary assertion immediately after a word character. -/
def atBoundary : List Char → Bool
  | [] => true
  | c :: _ => !(isWordC c)

/-- JS String.trim on a character list (ASCII whitespace). -/
def jsTrim (l : List Char) : List Char :=
  ((l.dropWhile isJsWs).reverse.dropWhile isJsWs).reverse

theorem len_dropWhile_le (p : α → Bool) (l : List α) :
    (l.dropWhile p).length ≤ l.length :=
  (List.dropWhile_sublist p).length_le

end PdfJs

namespace TextVector

open PdfJs

/-- A 6-value affine matrix [a b c d e f] as used by both interpreters. -/
structure Mat where
  a : ℚ
  b : ℚ
  c : ℚ
  d : ℚ
  e : ℚ
  f : ℚ
deriving Repr, DecidableEq

/-- multiplyMatrix (src/text-vector.js lines 391-397). -/
def multiplyMatrix (m1 m2 : Mat) : Mat :=
  ⟨m1.a * m2.a + m1.c * m2.b, m1.b * m2.a + m1.d * m2.b,
   m1.a * m2.c + m1.c * m2.d, m1.b * m2.c + m1.d * m2.d,
   m1.a * m2.e + m1.c * m2.f + m1.e, m1.b * m2.e + m1.d * m2.f + m1.f⟩

def identityMat : Mat := ⟨1, 0, 0, 1, 0, 0⟩

/-- Content-stream tokens produced by tokenize (src/text-vector.js lines 416-505). -/
inductive Tok where
  | number (value : ℚ)
  | string (value : String)
  | hexstring (bytes : List ℕ)
  | array (value : List Tok)
  | operator (value : String)
deriving Repr

/-- The balanced-parenthesis string lexer inside tokenize (lines 424-455).
`depth` starts at 1 after the opening parenthesis. The lexer itself rewrites
a double backslash to a single backslash and backslash-n to a newline, and
drops the backslash before any other character. Returns the accumulated
value and the rest of the input after the closing parenthesis. -/
def lexString : List Char → ℕ → List Char → (List Char × List Char)
  | [], _, acc => (acc.reverse, [])
  | '\\' :: rest, depth, acc =>
    match rest with
    | [] => (acc.reverse, [])
    | next :: rest2 =>
      lexString rest2 depth
        ((if next = '\\' then '\\' else if next = 'n' then '\n' else next) :: acc)
  | '(' :: rest, depth, acc => lexString rest (depth + 1) ('(' :: acc)
  | ')' :: rest, depth, acc =>
    if depth = 1 then (acc.reverse, rest)
    else lexString rest (depth - 1) (')' :: acc)
  | c :: rest, depth, acc => lexString rest depth (c :: acc)

/-- Hex-string lexer (lines 456-471): collect characters up to the closing
angle bracket, dropping whitespace; returns them and the rest of the input
after the closing bracket. -/
def lexHex (l : List Char) : (List Char × List Char) :=
  let body := l.takeWhile (fun c => c != '>')
  let rest := l.dropWhile (fun c => c != '>')
  (body.filter (fun c => !(isJsWs c)),
   match rest with
   | [] => []
   | _ :: t => t)

/-- parseInt of a two-character hex chunk with JS prefix semantics, stored
into a byte (NaN becomes 0). -/
def hexPairByte (a b : Char) : ℕ :=
  if isHexC a then
    (if isHexC b then hexDigitVal a * 16 + hexDigitVal b else hexDigitVal a)
  else 0

/-- Pair up the (odd-length-padded) hex digits into bytes. -/
def hexPairs : List Char → List ℕ
  | [] => []
  | [a] => [hexPairByte a '0']
  | a :: b :: t => hexPairByte a b :: hexPairs t

/-- Bracket-balanced sub-input extraction for array tokens (lines 472-485):
a character is appended only while the post-update depth stays positive, so
the final closing bracket is dropped. -/
def lexArrayBody : List Char → ℕ → List Char → (List Char × List Char)
  | [], _, acc => (acc.reverse, [])
  | c :: rest, depth, acc =>
    let depth' := if c = '[' then depth + 1 else if c = ']' then depth - 1 else depth
    if depth' = 0 then (acc.reverse, rest)
    else lexArrayBody rest depth' (c :: acc)

/-- Finish parsing the optional exponent of a JS decimal number token. -/
def finishExp (neg : Bool) (ip fp : List Char) : List Char → Option ℚ
  | [] => some (decValue neg ip fp)
  | e :: t =>
    if e = 'e' || e = 'E' then
      let p : Bool × List Char := match t with
        | '-' :: r => (true, r)
        | '+' :: r => (false, r)
        | _ => (false, t)
      let ed := p.2.takeWhile isDigitC
      let rest := p.2.dropWhile isDigitC
      if ed = [] then none
      else if rest ≠ [] then none
      else
        let m := decValue neg ip fp
        some (if p.1 then m / (10 : ℚ) ^ digitsVal ed else m * (10 : ℚ) ^ digitsVal ed)
    else none

/-- JS `!isNaN(tok)` plus `parseFloat(tok)` for a bare (whitespace-free,
nonempty) token: the decimal-literal forms Number() accepts, with their
parseFloat value. Hex and Infinity forms do not arise in content streams
and are treated as non-numeric. -/
def jsNumberValue (tok : List Char) : Option ℚ :=
  let p : Bool × List Char := match tok with
    | '-' :: t => (true, t)
    | '+' :: t => (false, t)
    | _ => (false, tok)
  let neg := p.1
  let l1 := p.2
  let ip := l1.takeWhile isDigitC
  let l2 := l1.dropWhile isDigitC
  match l2 with
  | '.' :: t =>
    let fp := t.takeWhile isDigitC
    let l3 := t.dropWhile isDigitC
    if ip = [] ∧ fp = [] then none
    else finishExp neg ip fp l3
  | _ =>
    if ip = [] then none else finishExp neg ip [] l2

/-- Characters that continue a bare token in the content tokenizer: anything
but whitespace and the four delimiters it stops at (note the closing
parenthesis and bracket do not stop a bare token, as in the source). -/
def isBareTokC (c : Char) : Bool :=
  !(isJsWs c) && c != '(' && c != '[' && c != '<' && c != '>'

theorem lexString_rest_le (l : List Char) (d : ℕ) (acc : List Char) :
    (lexString l d acc).2.length ≤ l.length := by
  induction l, d, acc using lexString.induct with
  | _ =>
    simp only [lexString]
    first
    | (split <;> simp_all <;> omega)
    | (simp_all; omega)
    | simp_all

theorem lexArrayBody_body_le (l : List Char) (d : ℕ) (acc : List Char) :
    (lexArrayBody l d acc).1.length ≤ acc.length + l.length := by
  induction l generalizing d acc with
  | nil => simp [lexArrayBody]
  | cons c rest ih =>
    simp only [lexArrayBody]
    generalize (if c = '[' then d + 1 else if c = ']' then d - 1 else d) = d'
    split
    · simp
    · calc (lexArrayBody rest d' (c :: acc)).1.length ≤ (c :: acc).length + rest.length :=
            ih _ _
        _ ≤ acc.length + (c :: rest).length := by simp; omega

theorem lexArrayBody_rest_le (l : List Char) (d : ℕ) (acc : List Char) :
    (lexArrayBody l d acc).2.length ≤ l.length := by
  induction l generalizing d acc with
  | nil => simp [lexArrayBody]
  | cons c rest ih =>
    simp only [lexArrayBody]
    generalize (if c = '[' then d + 1 else if c = ']' then d - 1 else d) = d'
    split
    · simp
    · calc (lexArrayBody rest d' (c :: acc)).2.length ≤ rest.length := ih _ _
        _ ≤ (c :: rest).length := by simp

theorem lexHex_rest_le (l : List Char) : (lexHex l).2.length ≤ l.length := by
  have h := len_dropWhile_le (fun c => c != '>') l
  unfold lexHex
  cases hdw : l.dropWhile (fun c => c != '>') with
  | nil => simp
  | cons x t =>
    rw [hdw] at h
    simp only
    simp at h ⊢
    omega

theorem dropWhile_cons_length_le (p : α → Bool) (c : α) (t : List α) (x : α)
    (xs : List α) (h : (c :: t).takeWhile p = x :: xs) :
    ((c :: t).dropWhile p).length ≤ t.length := by
  cases hc : p c with
  | false => simp [List.takeWhile, hc] at h
  | true =>
    simp only [List.dropWhile, hc]
    exact len_dropWhile_le p t

theorem jsTrim_le (l : List Char) : (jsTrim l).length ≤ l.length := by
  unfold jsTrim
  calc ((l.dropWhile isJsWs).reverse.dropWhile isJsWs).reverse.length
      = ((l.dropWhile isJsWs).reverse.dropWhile isJsWs).length := by simp
    _ ≤ (l.dropWhile isJsWs).reverse.length := len_dropWhile_le _ _
    _ = (l.dropWhile isJsWs).length := by simp
    _ ≤ l.length := len_dropWhile_le _ _

/-- The content-stream tokenizer tokenize (src/text-vector.js lines 416-505)
over a character list. The leading fuel argument is only a termination
bound; every recursive call strictly shortens the input, so the wrapper's
length-plus-one fuel is never exhausted. -/
def tokenizeL : ℕ → List Char → List Tok
  | 0, _ => []
  | _, [] => []
  | fuel + 1, c :: rest =>
    if isJsWs c then tokenizeL fuel rest
    else if c = '(' then
      let p := lexString rest 1 []
      Tok.string (String.mk p.1) :: tokenizeL fuel p.2
    else if c = '<' ∧ rest ≠ [] ∧ rest.headD ' ' ≠ '<' then
      let p := lexHex rest
      Tok.hexstring (hexPairs p.1) :: tokenizeL fuel p.2
    else if c = '[' then
      let p := lexArrayBody rest 1 []
      Tok.array (tokenizeL fuel (jsTrim p.1)) :: tokenizeL fuel p.2
    else
      match (c :: rest).takeWhile isBareTokC with
      | [] => tokenizeL fuel rest
      | tc :: ts =>
        (match jsNumberValue (tc :: ts) with
         | some q => Tok.number q
         | none => Tok.operator (String.mk (tc :: ts))) ::
          tokenizeL fuel ((c :: rest).dropWhile isBareTokC)

/-- tokenize entry point on a string. -/
def tokenize (input : String) : List Tok :=
  tokenizeL (input.data.length + 1) input.data

/-- Octal-escape consumption of decodePdfString (up to three octal digits,
with the source's lookahead and backtrack index arithmetic): given the first
octal digit and the input after it, returns the decoded value and the rest. -/
def octSplit (n : Char) (rest2 : List Char) : ℕ × List Char :=
  match rest2 with
  | d2 :: rest3 =>
    if '0' ≤ d2 ∧ d2 ≤ '7' then
      match rest3 with
      | d3 :: rest4 =>
        if '0' ≤ d3 ∧ d3 ≤ '7' then
          ((digitVal n * 8 + digitVal d2) * 8 + digitVal d3, rest4)
        else (digitVal n * 8 + digitVal d2, rest3)
      | [] => (digitVal n * 8 + digitVal d2, [])
    else (digitVal n, rest2)
  | [] => (digitVal n, [])

theorem octSplit_rest_le (n : Char) (rest2 : List Char) :
    (octSplit n rest2).2.length ≤ rest2.length := by
  unfold octSplit
  rcases rest2 with _ | ⟨d2, rest3⟩
  · simp
  · rcases rest3 with _ | ⟨d3, rest4⟩ <;> simp only <;> split <;> (try split) <;>
      simp <;> try omega

/-- decodePdfString (src/text-vector.js lines 320-355): full PDF escape
decoding over the characters of an already-lexed string value, including
octal escapes of up to three digits and the backslash-newline line
continuation (decoded to no character at all). The leading fuel argument is
only a termination bound; every step strictly shortens the input, so the
wrapper's length-plus-one fuel is never exhausted. -/
def decodePdfStringGo : ℕ → List Char → List Char → List Char
  | 0, _, acc => acc.reverse
  | _, [], acc => acc.reverse
  | _, ['\\'], acc => acc.reverse
  | fuel + 1, '\\' :: n :: rest2, acc =>
    if '0' ≤ n ∧ n ≤ '7' then
      decodePdfStringGo fuel (octSplit n rest2).2
        (Char.ofNat ((octSplit n rest2).1 % 65536) :: acc)
    else if n = 'n' then decodePdfStringGo fuel rest2 ('\n' :: acc)
    else if n = 'r' then decodePdfStringGo fuel rest2 ('\r' :: acc)
    else if n = 't' then decodePdfStringGo fuel rest2 ('\t' :: acc)
    else if n = 'b' then decodePdfStringGo fuel rest2 ('\x08' :: acc)
    else if n = 'f' then decodePdfStringGo fuel rest2 ('\x0c' :: acc)
    else if n = '\\' then decodePdfStringGo fuel rest2 ('\\' :: acc)
    else if n = '(' then decodePdfStringGo fuel rest2 ('(' :: acc)
    else if n = ')' then decodePdfStringGo fuel rest2 (')' :: acc)
    else if n = '\n' ∨ n = '\r' then decodePdfStringGo fuel rest2 acc
    else decodePdfStringGo fuel rest2 (n :: acc)
  | fuel + 1, c :: rest, acc => decodePdfStringGo fuel rest (c :: acc)

def decodePdfString (inner : String) : String :=
  String.mk (decodePdfStringGo (inner.data.length + 1) inner.data [])

/-- JS Map.set: update the existing key in place, else append. -/
def msetN (m : List (ℕ × ℕ)) (k v : ℕ) : List (ℕ × ℕ) :=
  if m.any (fun p => p.1 == k) then m.map (fun p => if p.1 = k then (k, v) else p)
  else m ++ [(k, v)]

def nlookup (m : List (ℕ × ℕ)) (k : ℕ) : Option ℕ :=
  (m.find? (fun p => p.1 == k)).map Prod.snd

/-- Result of parseCMap: the code → UTF-16-unit map and the detected
codespace length (match[1].length / 2, a JS number). -/
structure CMapResult where
  map : List (ℕ × ℕ)
  codeLength : ℚ
deriving Repr, DecidableEq

/-- getUnicode (src/text-vector.js line 200): the mapped character, or the
replacement character U+FFFD when the code is unmapped. -/
def getUnicode (r : CMapResult) (cid : ℕ) : ℕ :=
  ((r.map.find? (fun p => p.1 == cid)).map Prod.snd).getD 0xFFFD

/-- Split on the line separator regex (carriage-return optional before a
newline), as String.prototype.split does. -/
def splitLinesGo : List Char → List Char → List (List Char)
  | [], acc => [acc.reverse]
  | '\r' :: '\n' :: t, acc => acc.reverse :: splitLinesGo t []
  | '\n' :: t, acc => acc.reverse :: splitLinesGo t []
  | c :: t, acc => splitLinesGo t (c :: acc)

/-- First match of the two-group hex-pair regex of parseCMap (one literal
space between the groups), returning the two digit groups. -/
def matchHexPair (l : List Char) : Option (List Char × List Char) :=
  scanPos (fun s =>
    match s with
    | '<' :: s1 =>
      let h1 := s1.takeWhile isHexC
      let s2 := s1.dropWhile isHexC
      if h1 = [] then none else
      match s2 with
      | '>' :: ' ' :: '<' :: s3 =>
        let h2 := s3.takeWhile isHexC
        let s4 := s3.dropWhile isHexC
        if h2 = [] then none else
        match s4 with
        | '>' :: _ => some (h1, h2)
        | _ => none
      | _ => none
    | _ => none) l

/-- First match of the three-group hex regex of parseCMap's bfrange lines. -/
def matchHexTriple (l : List Char) : Option (List Char × List Char × List Char) :=
  scanPos (fun s =>
    match s with
    | '<' :: s1 =>
      let h1 := s1.takeWhile isHexC
      let s2 := s1.dropWhile isHexC
      if h1 = [] then none else
      match s2 with
      | '>' :: ' ' :: '<' :: s3 =>
        let h2 := s3.takeWhile isHexC
        let s4 := s3.dropWhile isHexC
        if h2 = [] then none else
        match s4 with
        | '>' :: ' ' :: '<' :: s5 =>
          let h3 := s5.takeWhile isHexC
          let s6 := s5.dropWhile isHexC
          if h3 = [] then none else
          match s6 with
          | '>' :: _ => some (h1, h2, h3)
          | _ => none
        | _ => none
      | _ => none
    | _ => none) l

/-- The bfrange fill loop: map.set(cid, String.fromCharCode(base++)) for cid
from start to end inclusive (String.fromCharCode keeps the low 16 bits). -/
def bfrangeFill (m : List (ℕ × ℕ)) (start e base : ℕ) : List (ℕ × ℕ) :=
  if start ≤ e then
    (List.range (e - start + 1)).foldl
      (fun acc k => msetN acc (start + k) ((base + k) % 65536)) m
  else m

structure CMapSt where
  map : List (ℕ × ℕ)
  inBfchar : Bool
  inBfrange : Bool
  inCodespace : Bool
  codeLength : ℚ
deriving Repr

/-- One line of parseCMap's loop (src/text-vector.js lines 168-196). -/
def parseCMapLine (st : CMapSt) (raw : List Char) : CMapSt :=
  let line := jsTrim raw
  if line = [] then st
  else if line = "beginbfchar".data then { st with inBfchar := true }
  else if line = "endbfchar".data then { st with inBfchar := false }
  else if line = "beginbfrange".data then { st with inBfrange := true }
  else if line = "endbfrange".data then { st with inBfrange := false }
  else if line = "begincodespacerange".data then { st with inCodespace := true }
  else if line = "endcodespacerange".data then { st with inCodespace := false }
  else
    let st1 := if st.inCodespace then
        match matchHexPair line with
        | some (h1, _) => { st with codeLength := (h1.length : ℚ) / 2 }
        | none => st
      else st
    let st2 := if st1.inBfchar then
        match matchHexPair line with
        | some (h1, h2) => { st1 with map := msetN st1.map (hexVal h1) (hexVal h2 % 65536) }
        | none => st1
      else st1
    if st2.inBfrange then
      match matchHexTriple line with
      | some (h1, h2, h3) =>
        { st2 with map := bfrangeFill st2.map (hexVal h1) (hexVal h2) (hexVal h3) }
      | none => st2
    else st2

/-- parseCMap (src/text-vector.js lines 161-202). -/
def parseCMap (cmapStr : String) : CMapResult :=
  let st := (splitLinesGo cmapStr.data []).foldl parseCMapLine ⟨[], false, false, false, 2⟩
  ⟨st.map, st.codeLength⟩

/-- JS Map.set on rational keys (same semantics as msetN). -/
def msetQ (m : List (ℚ × ℚ)) (k v : ℚ) : List (ℚ × ℚ) :=
  if m.any (fun p => p.1 == k) then m.map (fun p => if p.1 = k then (k, v) else p)
  else m ++ [(k, v)]

def wlookup (m : List (ℚ × ℚ)) (k : ℚ) : Option ℚ :=
  (m.find? (fun p => p.1 == k)).map Prod.snd

/-- The bracketed-list branch of parseWidths: consecutive codes from `first`
get the numeric entries of the sub-array; non-number entries are skipped
without advancing the code. -/
def widthsFromSubarray (first : ℚ) (arr : List Tok) (m : List (ℚ × ℚ)) :
    List (ℚ × ℚ) :=
  (arr.foldl (fun (p : ℚ × List (ℚ × ℚ)) wt =>
    match wt with
    | Tok.number v => (p.1 + 1, msetQ p.2 p.1 v)
    | _ => p) (first, m)).2

/-- The range branch of parseWidths: codes first..last all get width w
(the JS loop runs floor(last - first) + 1 times when first ≤ last). -/
def widthsFromRange (first last w : ℚ) (m : List (ℚ × ℚ)) : List (ℚ × ℚ) :=
  if first ≤ last then
    (List.range ((Rat.floor (last - first)).toNat + 1)).foldl
      (fun acc k => msetQ acc (first + (k : ℚ)) w) m
  else m

/-- parseWidths (src/text-vector.js lines 205-227). The source reads
wArrayTokens[idx].type immediately after consuming a leading number; when
that index is past the end of the array the JS dereference of undefined
throws a TypeError, modelled as Except.error. -/
def parseWidthsGo : List Tok → List (ℚ × ℚ) → Except String (List (ℚ × ℚ))
  | [], m => Except.ok m
  | [Tok.number _], m => Except.error "TypeError: cannot read type of undefined"
  | Tok.number first :: Tok.array a :: rest2, m =>
    parseWidthsGo rest2 (widthsFromSubarray first a m)
  | Tok.number first :: Tok.number last :: Tok.number w :: rest3, m =>
    parseWidthsGo rest3 (widthsFromRange first last w m)
  | Tok.number _ :: rest, m => parseWidthsGo rest m
  | _ :: rest, m => parseWidthsGo rest m

def parseWidths (wArrayTokens : List Tok) : Except String (List (ℚ × ℚ)) :=
  parseWidthsGo wArrayTokens []

/-- The font record cached by loadFont, restricted to the fields consulted
by getTextFromToken and emitTJ. codeLength is a natural here; the claims
about composite decoding concern the integral code lengths loadFont
produces (1, or 2, or a codespace-derived whole number). -/
structure CachedFont where
  fontFamily : String
  isComposite : Bool
  codeLength : ℕ
  toUnicode : Option CMapResult
deriving Repr

/-- The code assembled from one chunk of `cl` bytes starting at index `j`:
cid = (cid << 8) | (bytes[j+k] || 0), so bytes past the end read as zero
(byte values are below 256, so the bitwise-or is plain addition). -/
def cidOf (bytes : List ℕ) (j cl : ℕ) : ℕ :=
  (List.range cl).foldl (fun cid k => cid * 256 + (bytes.getD (j + k) 0)) 0

/-- The codes produced by getTextFromToken's composite loop
(src/text-vector.js lines 372-381): one code per `cl`-byte chunk, the final
chunk zero-padded. The source loop does not terminate for cl = 0 (which the
renderer never produces); the model returns [] there. -/
def compositeCids (bytes : List ℕ) (cl : ℕ) : List ℕ :=
  if h : cl = 0 ∨ bytes = [] then []
  else cidOf bytes 0 cl :: compositeCids (bytes.drop cl) cl
  termination_by bytes.length
  decreasing_by
  have hcl : cl ≠ 0 := fun hc => h (Or.inl hc)
  have hb : bytes ≠ [] := fun hb => h (Or.inr hb)
  have : 0 < bytes.length := List.length_pos.mpr hb
  simp only [List.length_drop]
  omega

/-- The character emitted for one composite code: the ToUnicode mapping when
present (with U+FFFD for unmapped codes), else String.fromCharCode(cid). -/
def charFor (tu : Option CMapResult) (cid : ℕ) : ℕ :=
  match tu with
  | some r => getUnicode r cid
  | none => cid % 65536

/-- Decoded text (as UTF-16 code units) for a byte buffer under a font
(src/text-vector.js lines 371-385). -/
def decodeBytes (bytes : List ℕ) (cachedFont : Option CachedFont) : List ℕ :=
  match cachedFont with
  | some cf =>
    if cf.isComposite then (compositeCids bytes cf.codeLength).map (charFor cf.toUnicode)
    else bytes.map (fun b => b % 65536)
  | none => bytes.map (fun b => b % 65536)

/-- getTextFromToken (src/text-vector.js lines 358-386): string tokens pass
through decodePdfString and are truncated to bytes (charCodeAt & 0xff);
hexstring tokens supply their bytes directly; other tokens give no text. -/
def getTextFromToken (token : Tok) (cachedFont : Option CachedFont) : List ℕ :=
  match token with
  | Tok.hexstring bytes => decodeBytes bytes cachedFont
  | Tok.string s => decodeBytes ((decodePdfString s).data.map (fun c => c.toNat % 256)) cachedFont
  | _ => []

/-- A tspan of the text element emitTJ builds: either merged text or a
kerning shift (the dx attribute). -/
inductive Span where
  | text (units : List ℕ)
  | kern (dx : ℚ)
deriving Repr, DecidableEq

/-- The TJ array walk of emitTJ (src/text-vector.js lines 1067-1082): a
numeric entry closes the current tspan (if it has text) and emits a kerning
tspan of dx = -(adjust / 1000) * fontSize * scale * textScale; string and
hexstring entries append their decoded text to the current tspan. -/
def emitTJSpans (arrTokens : List Tok) (fontSize scale textScale : ℚ)
    (cachedFont : Option CachedFont) : List Span :=
  let r := arrTokens.foldl (fun (p : List Span × List ℕ) sub =>
    match sub with
    | Tok.number adjust =>
      let spans := if p.2 ≠ [] then p.1 ++ [Span.text p.2] else p.1
      (spans ++ [Span.kern (-(adjust / 1000) * fontSize * scale * textScale)], [])
    | Tok.string _ => (p.1, p.2 ++ getTextFromToken sub cachedFont)
    | Tok.hexstring _ => (p.1, p.2 ++ getTextFromToken sub cachedFont)
    | _ => p) ([], [])
  if r.2 ≠ [] then r.1 ++ [Span.text r.2] else r.1

/-- The graphics state of renderPage (src/text-vector.js lines 695-712),
with the fields its q operator snapshots (lines 961-980). The dash pattern
object is flattened into its two fields. -/
structure TVState where
  g : Mat
  t : Mat
  f : String
  fs : ℚ
  ts : ℚ
  fill : ℚ × ℚ × ℚ
  o : ℚ × ℚ
  vecFill : String
  vecStroke : String
  lw : ℚ
  lc : String
  lj : String
  ml : ℚ
  dpArray : List ℚ
  dpPhase : ℚ
  strokeCS : String
  nonStrokeCS : String
deriving Repr, DecidableEq

/-- The initial engine state of renderPage (src/text-vector.js lines 695-712). -/
def initTVState : TVState :=
  ⟨identityMat, identityMat, "sans-serif", 12, 1, (0, 0, 0), (0, 0),
   "#000000", "#000000", 1, "butt", "miter", 10, [], 0, "DeviceRGB", "DeviceRGB"⟩

/-- The state-affecting operators modelled for the renderPage machine. -/
inductive TVOp where
  | q
  | Q
  | cm (m : Mat)
  | w (x : ℚ)
  | cs (name : String)
  | CS (name : String)
deriving Repr

/-- One operator step of renderPage's graphics-state handling: q pushes a
snapshot (lines 961-980), Q pops it if the stack is non-empty — restoring
the two colour-space tags only when truthy, i.e. non-empty strings (lines
982-1004) — cm composes the operand matrix onto the CTM (lines 1006-1009),
w sets the line width, cs and CS set the colour-space tags. -/
def tvStep (op : TVOp) (s : TVState × List TVState) : TVState × List TVState :=
  match op with
  | TVOp.q => (s.1, s.1 :: s.2)
  | TVOp.Q =>
    match s.2 with
    | [] => (s.1, [])
    | snap :: rest =>
      ({ snap with
          strokeCS := if snap.strokeCS ≠ "" then snap.strokeCS else s.1.strokeCS,
          nonStrokeCS := if snap.nonStrokeCS ≠ "" then snap.nonStrokeCS else s.1.nonStrokeCS },
       rest)
  | TVOp.cm m => ({ s.1 with g := multiplyMatrix s.1.g m }, s.2)
  | TVOp.w x => ({ s.1 with lw := x }, s.2)
  | TVOp.cs n => ({ s.1 with nonStrokeCS := n }, s.2)
  | TVOp.CS n => ({ s.1 with strokeCS := n }, s.2)

/-- The renderPage token loop restricted to the modelled operators. -/
def tvExec (ops : List TVOp) (s : TVState × List TVState) : TVState × List TVState :=
  ops.foldl (fun st op => tvStep op st) s

end TextVector

namespace ImageModule

open PdfJs
open TextVector (Mat)

/-- mult (src/image.js lines 120-126): the same 6-value affine composition
as the text renderer's multiplyMatrix. -/
def mult (a b : Mat) : Mat :=
  ⟨a.a * b.a + a.c * b.b, a.b * b.a + a.d * b.b,
   a.a * b.c + a.c * b.d, a.b * b.c + a.d * b.d,
   a.a * b.e + a.c * b.f + a.e, a.b * b.e + a.d * b.f + a.f⟩

def idMat : Mat := ⟨1, 0, 0, 1, 0, 0⟩

/-- The operators of the image pass's graphics state (q/Q/cm; Do and BI do
not change the CTM or the stack). -/
inductive ImgOp where
  | q
  | Q
  | cm (m : Mat)
deriving Repr

/-- One step of renderPageWithImages' CTM tracker (src/image.js lines
355-360): q pushes a copy of the CTM, Q pops the stack when it is
non-empty and otherwise RESETS the CTM to the identity matrix, cm composes
the operand matrix onto the CTM. -/
def imgStep (op : ImgOp) (s : Mat × List Mat) : Mat × List Mat :=
  match op with
  | ImgOp.q => (s.1, s.1 :: s.2)
  | ImgOp.Q =>
    match s.2 with
    | [] => (idMat, [])
    | c :: rest => (c, rest)
  | ImgOp.cm m => (mult s.1 m, s.2)

/-- The image pass's token loop restricted to the state operators. -/
def imgExec (ops : List ImgOp) (s : Mat × List Mat) : Mat × List Mat :=
  ops.foldl (fun st op => imgStep op st) s

end ImageModule

namespace FontModule

open PdfJs

/-- readRef (font.js lines 59-62): first match of the indirect-reference
regex slash-Key whitespace* digits whitespace+ digits whitespace+ R. -/
def readRef (dict key : String) : Option (ℕ × ℕ) :=
  scanPos (fun l =>
    match matchLit ('/' :: key.data) l with
    | none => none
    | some l1 =>
      let l2 := l1.dropWhile isJsWs
      let d1 := l2.takeWhile isDigitC
      let l3 := l2.dropWhile isDigitC
      if d1 = [] then none else
      let l4 := l3.dropWhile isJsWs
      if l4.length = l3.length then none else
      let d2 := l4.takeWhile isDigitC
      let l5 := l4.dropWhile isDigitC
      if d2 = [] then none else
      let l6 := l5.dropWhile isJsWs
      if l6.length = l5.length then none else
      match l6 with
      | 'R' :: _ => some (digitsVal d1, digitsVal d2)
      | _ => none) dict.data

/-- readNumber (font.js lines 64-67): first match of slash-Key whitespace+
signed-decimal (no trailing word boundary in this regex). -/
def readNumber (dict key : String) : Option ℚ :=
  scanPos (fun l =>
    match matchLit ('/' :: key.data) l with
    | none => none
    | some l1 =>
      let l2 := l1.dropWhile isJsWs
      if l2.length = l1.length then none
      else (matchNumFrac l2).map Prod.fst) dict.data

/-- readName (font.js lines 54-57): first match of slash-Key whitespace*
slash followed by one or more characters that are not whitespace, slash,
closing angle bracket or opening square bracket. -/
def isNameC (c : Char) : Bool :=
  !(isJsWs c) && c != '/' && c != '>' && c != '['

def readName (dict key : String) (dflt : Option String) : Option String :=
  match scanPos (fun l =>
    match matchLit ('/' :: key.data) l with
    | none => none
    | some l1 =>
      let l2 := l1.dropWhile isJsWs
      match l2 with
      | '/' :: l3 =>
        let nm := l3.takeWhile isNameC
        if nm = [] then none else some (String.mk nm)
      | _ => none) dict.data with
  | some s => some s
  | none => dflt

/-- First element after a literal, then the first closing occurrence: split
the input at the first occurrence of a needle, returning the part before it
and the part after it. -/
def splitAtSubGo (needle : List Char) : List Char → List Char →
    Option (List Char × List Char)
  | [], acc =>
    match matchLit needle [] with
    | some r => some (acc.reverse, r)
    | none => none
  | c :: t, acc =>
    match matchLit needle (c :: t) with
    | some r => some (acc.reverse, r)
    | none => splitAtSubGo needle t (c :: acc)

def splitAtSub (needle l : List Char) : Option (List Char × List Char) :=
  splitAtSubGo needle l []

theorem matchLit_length (pat : List Char) :
    ∀ l r, matchLit pat l = some r → r.length + pat.length = l.length := by
  induction pat with
  | nil => intro l r h; simp [matchLit] at h; simp [h]
  | cons p ps ih =>
    intro l r h
    cases l with
    | nil => simp [matchLit] at h
    | cons c cs =>
      simp only [matchLit] at h
      split at h
      · have := ih cs r h
        simp only [List.length_cons]
        omega
      · exact absurd h (by simp)

theorem splitAtSubGo_snd_lt (needle : List Char) (hn : needle ≠ []) :
    ∀ l acc pre post, splitAtSubGo needle l acc = some (pre, post) →
      post.length < l.length + needle.length := by
  intro l
  induction l with
  | nil =>
    intro acc pre post h
    simp only [splitAtSubGo] at h
    cases hm : matchLit needle [] with
    | none => rw [hm] at h; exact absurd h (by simp)
    | some r =>
      rw [hm] at h
      have := matchLit_length needle [] r hm
      simp at this
      exact absurd this.2 hn
  | cons c t ih =>
    intro acc pre post h
    simp only [splitAtSubGo] at h
    cases hm : matchLit needle (c :: t) with
    | none =>
      rw [hm] at h
      have := ih (c :: acc) pre post h
      simp only [List.length_cons]
      omega
    | some r =>
      rw [hm] at h
      have := matchLit_length needle (c :: t) r hm
      have hneed : needle.length ≠ 0 := fun hz => hn (List.eq_nil_of_length_eq_zero hz)
      simp only [Option.some.injEq, Prod.mk.injEq] at h
      obtain ⟨-, h2⟩ := h
      subst h2
      simp only [List.length_cons] at this ⊢
      omega

theorem splitAtSubGo_bound (needle : List Char) :
    ∀ l acc pre post, splitAtSubGo needle l acc = some (pre, post) →
      post.length + needle.length ≤ l.length := by
  intro l
  induction l with
  | nil =>
    intro acc pre post h
    simp only [splitAtSubGo] at h
    cases hm : matchLit needle [] with
    | none => rw [hm] at h; exact absurd h (by simp)
    | some r =>
      rw [hm] at h
      have := matchLit_length needle [] r hm
      simp only [Option.some.injEq, Prod.mk.injEq] at h
      obtain ⟨-, h2⟩ := h
      subst h2
      simp only [List.length_nil] at this ⊢
      omega
  | cons c t ih =>
    intro acc pre post h
    simp only [splitAtSubGo] at h
    cases hm : matchLit needle (c :: t) with
    | none =>
      rw [hm] at h
      have := ih (c :: acc) pre post h
      simp only [List.length_cons] at this ⊢
      omega
    | some r =>
      rw [hm] at h
      have := matchLit_length needle (c :: t) r hm
      simp only [Option.some.injEq, Prod.mk.injEq] at h
      obtain ⟨-, h2⟩ := h
      subst h2
      simp only [List.length_cons] at this ⊢
      omega

/-- The tight bound: what remains after the needle is consumed fits in the
input. -/
theorem splitAtSub_bound (needle l pre post : List Char)
    (h : splitAtSub needle l = some (pre, post)) :
    post.length + needle.length ≤ l.length :=
  splitAtSubGo_bound needle l [] pre post h

/-- Non-overlapping lazy block extraction, as a global regex of the form
beginLit lazy-body endLit performs: each match's body is the shortest span
between the next beginLit and the following endLit. The fuel argument is a
never-exhausted termination bound. -/
def extractBlocks : ℕ → List Char → List Char → List Char → List (List Char)
  | 0, _, _, _ => []
  | fuel + 1, bLit, eLit, l =>
    match splitAtSub bLit l with
    | none => []
    | some (_, rest) =>
      match splitAtSub eLit rest with
      | none => []
      | some (body, rest2) => body :: extractBlocks fuel bLit eLit rest2

/-- Expect one specific character at the head of the input. -/
def expectChar (c : Char) : List Char → Option (List Char)
  | x :: t => if x = c then some t else none
  | [] => none

theorem expectChar_len (c : Char) (l r : List Char) (h : expectChar c l = some r) :
    r.length + 1 = l.length := by
  cases l with
  | nil => simp [expectChar] at h
  | cons x t =>
    simp only [expectChar] at h
    split at h
    · simp only [Option.some.injEq] at h; subst h; simp
    · exact absurd h (by simp)

/-- Take one or more hex digits from the head of the input. -/
def takeHex1 (l : List Char) : Option (List Char × List Char) :=
  let h := l.takeWhile isHexC
  if h = [] then none else some (h, l.dropWhile isHexC)

theorem takeHex1_len (l h1 r : List Char) (h : takeHex1 l = some (h1, r)) :
    r.length ≤ l.length := by
  simp only [takeHex1] at h
  split at h
  · exact absurd h (by simp)
  · simp only [Option.some.injEq, Prod.mk.injEq] at h
    obtain ⟨-, h2⟩ := h
    subst h2
    exact len_dropWhile_le _ _

/-- One codespace pair match of the two-group regex with optional whitespace
between the groups: the first group's digit count and the input after the
whole match. -/
def csPairAt (l : List Char) : Option (ℕ × List Char) :=
  match expectChar '<' l with
  | none => none
  | some t =>
    match takeHex1 t with
    | none => none
    | some (h1, t2) =>
      match expectChar '>' t2 with
      | none => none
      | some t3 =>
        match expectChar '<' (t3.dropWhile isJsWs) with
        | none => none
        | some t5 =>
          match takeHex1 t5 with
          | none => none
          | some (_, t6) =>
            match expectChar '>' t6 with
            | none => none
            | some t7 => some (h1.length, t7)

theorem csPairAt_rest_lt (l : List Char) (n : ℕ) (rest : List Char)
    (h : csPairAt l = some (n, rest)) : rest.length < l.length := by
  unfold csPairAt at h
  rcases he1 : expectChar '<' l with _ | t <;> rw [he1] at h
  · exact absurd h (by simp)
  dsimp only at h
  rcases hp1 : takeHex1 t with _ | ⟨h1, t2⟩ <;> rw [hp1] at h
  · exact absurd h (by simp)
  dsimp only at h
  rcases he2 : expectChar '>' t2 with _ | t3 <;> rw [he2] at h
  · exact absurd h (by simp)
  dsimp only at h
  rcases he3 : expectChar '<' (t3.dropWhile isJsWs) with _ | t5 <;> rw [he3] at h
  · exact absurd h (by simp)
  dsimp only at h
  rcases hp2 : takeHex1 t5 with _ | ⟨h2, t6⟩ <;> rw [hp2] at h
  · exact absurd h (by simp)
  dsimp only at h
  rcases he4 : expectChar '>' t6 with _ | t7 <;> rw [he4] at h
  · exact absurd h (by simp)
  dsimp only at h
  simp only [Option.some.injEq, Prod.mk.injEq] at h
  obtain ⟨-, hr⟩ := h
  subst hr
  have e1 := expectChar_len _ _ _ he1
  have e2 := takeHex1_len _ _ _ hp1
  have e3 := expectChar_len _ _ _ he2
  have e4 := len_dropWhile_le isJsWs t3
  have e5 := expectChar_len _ _ _ he3
  have e6 := takeHex1_len _ _ _ hp2
  have e7 := expectChar_len _ _ _ he4
  omega

/-- All non-overlapping codespace pair matches in a block body (a global
regex walk: after a match the search resumes past it, otherwise it advances
one position). Collects the first group's digit counts. The fuel argument
is a never-exhausted termination bound. -/
def csPairsGo : ℕ → List Char → List ℕ → List ℕ
  | 0, _, acc => acc.reverse
  | _, [], acc => acc.reverse
  | fuel + 1, c :: t, acc =>
    match csPairAt (c :: t) with
    | some (n, rest) => csPairsGo fuel rest (n :: acc)
    | none => csPairsGo fuel t acc

def csPairs (body : List Char) : List ℕ := csPairsGo (body.length + 1) body []

/-- Object property write on a numeric-code-keyed map (map[k] = v). -/
def msetTU (m : List (ℕ × List ℕ)) (k : ℕ) (v : List ℕ) : List (ℕ × List ℕ) :=
  if m.any (fun p => p.1 == k) then m.map (fun p => if p.1 = k then (k, v) else p)
  else m ++ [(k, v)]

def tuLookup (m : List (ℕ × List ℕ)) (k : ℕ) : Option (List ℕ) :=
  (m.find? (fun p => p.1 == k)).map Prod.snd

/-- hexToCode (font.js line 90): parseInt(hex, 16) >>> 0. -/
def hexToCode (hex : List Char) : ℕ := hexVal hex % 4294967296

/-- Pair hex digits into byte values; a trailing lone digit is dropped, as
the pairwise global regex leaves it unmatched. -/
def hexBytes : List Char → List ℕ
  | a :: b :: t => (hexDigitVal a * 16 + hexDigitVal b) :: hexBytes t
  | _ => []

/-- hexToUnicodeText (font.js lines 91-100): big-endian UTF-16 units from
the byte pairs, skipping zero units. -/
def utf16Units : List ℕ → List ℕ
  | a :: b :: t =>
    let u := a * 256 + b
    if u ≠ 0 then u :: utf16Units t else utf16Units t
  | [a] =>
    let u := a * 256
    if u ≠ 0 then [u] else []
  | [] => []

def hexToUnicodeText (hex : List Char) : List ℕ := utf16Units (hexBytes hex)

/-- One angle-bracketed hex group: the group's digits and the rest. -/
def hexGroupAt (s : List Char) : Option (List Char × List Char) :=
  match expectChar '<' s with
  | none => none
  | some s1 =>
    match takeHex1 s1 with
    | none => none
    | some (h, s2) =>
      match expectChar '>' s2 with
      | none => none
      | some s3 => some (h, s3)

/-- First match on a line of the two-group hex regex with optional
whitespace between the groups (the ToUnicode parser's bfchar regex). -/
def tuMatchPair (l : List Char) : Option (List Char × List Char) :=
  scanPos (fun s => do
    let p1 ← hexGroupAt s
    let p2 ← hexGroupAt (p1.2.dropWhile isJsWs)
    pure (p1.1, p2.1)) l

/-- First match on a line of the three-group hex regex with optional
whitespace (the ToUnicode parser's plain bfrange form). -/
def tuMatchTriple (l : List Char) :
    Option (List Char × List Char × List Char) :=
  scanPos (fun s => do
    let p1 ← hexGroupAt s
    let p2 ← hexGroupAt (p1.2.dropWhile isJsWs)
    let p3 ← hexGroupAt (p2.2.dropWhile isJsWs)
    pure (p1.1, p2.1, p3.1)) l

/-- First match of the bracket-list bfrange form: two hex groups followed by
a non-empty bracketed body. -/
def tuMatchTripleBracket (l : List Char) :
    Option (List Char × List Char × List Char) :=
  scanPos (fun s => do
    let p1 ← hexGroupAt s
    let p2 ← hexGroupAt (p1.2.dropWhile isJsWs)
    let s7 ← expectChar '[' (p2.2.dropWhile isJsWs)
    let body := s7.takeWhile (fun c => c != ']')
    let s8 := s7.dropWhile (fun c => c != ']')
    if body = [] then none
    else match s8 with
      | ']' :: _ => pure (p1.1, p2.1, body)
      | _ => none) l

/-- All global matches of a single bracketed hex group (the destination
list items of a bracketed bfrange line). The fuel argument is a
never-exhausted termination bound. -/
def tuHexItems : ℕ → List Char → List (List Char)
  | 0, _ => []
  | _, [] => []
  | fuel + 1, '<' :: s1 =>
    (match s1.dropWhile isHexC with
     | '>' :: s2 =>
       if s1.takeWhile isHexC = [] then tuHexItems fuel s1
       else (s1.takeWhile isHexC) :: tuHexItems fuel s2
     | _ => tuHexItems fuel s1)
  | fuel + 1, _ :: t => tuHexItems fuel t

/-- Result of parseToUnicodeCMap: code → Unicode text (as UTF-16 units) and
the detected codespace byte length. -/
structure ToUnicodeResult where
  map : List (ℕ × List ℕ)
  bytesPerChar : ℕ
deriving Repr

/-- The sequential fill of a plain bfrange whose destination has exactly
four hex digits: map[c] = String.fromCharCode(dst0 + (c - s)). -/
def tuRangeFill (m : List (ℕ × List ℕ)) (s e dst0 : ℕ) : List (ℕ × List ℕ) :=
  if s ≤ e then
    (List.range (e - s + 1)).foldl
      (fun acc k => msetTU acc (s + k) [(dst0 + k) % 65536]) m
  else m

/-- One bfchar line (font.js lines 105-109). -/
def tuBfcharLine (m : List (ℕ × List ℕ)) (ln : List Char) : List (ℕ × List ℕ) :=
  match tuMatchPair ln with
  | some (h1, h2) => msetTU m (hexToCode h1) (hexToUnicodeText h2)
  | none => m

/-- One bfrange line (font.js lines 115-139). -/
def tuBfrangeLine (m : List (ℕ × List ℕ)) (ln : List Char) : List (ℕ × List ℕ) :=
  match tuMatchTriple ln with
  | some (h1, h2, dst0Hex) =>
    let s := hexToCode h1
    let e := hexToCode h2
    if dst0Hex.length = 4 then tuRangeFill m s e (hexToCode dst0Hex)
    else msetTU m s (hexToUnicodeText dst0Hex)
  | none =>
    match tuMatchTripleBracket ln with
    | some (h1, h2, inner) =>
      let s := hexToCode h1
      let e := hexToCode h2
      let items := tuHexItems (inner.length + 1) inner
      (items.foldl (fun (p : ℕ × List (ℕ × List ℕ)) h =>
        (p.1 + 1, if s + p.1 ≤ e then msetTU p.2 (s + p.1) (hexToUnicodeText h) else p.2))
        (0, m)).2
    | none => m

/-- parseToUnicodeCMap (font.js lines 72-142): codespace blocks determine
bytesPerChar (max over ceil(digits/2), at least 1); bfchar blocks then
bfrange blocks populate the map line by line. -/
def parseToUnicodeCMap (cmapText : String) : Option ToUnicodeResult :=
  if cmapText = "" then none
  else
    let t := cmapText.data
    let csLens := (extractBlocks (t.length + 1) "begincodespacerange".data
      "endcodespacerange".data t).bind csPairs
    let bytesPerChar := csLens.foldl (fun acc n => max acc ((n + 1) / 2)) 1
    let bfcharBodies := extractBlocks (t.length + 1) "beginbfchar".data "endbfchar".data t
    let m1 := bfcharBodies.foldl
      (fun m body => (TextVector.splitLinesGo body []).foldl tuBfcharLine m) []
    let bfrangeBodies := extractBlocks (t.length + 1) "beginbfrange".data "endbfrange".data t
    let m2 := bfrangeBodies.foldl
      (fun m body => (TextVector.splitLinesGo body []).foldl tuBfrangeLine m) m1
    some ⟨m2, bytesPerChar⟩

/-- Tokens of parseCIDWidths' body tokenizer: the global regex matching a
bracket or a numeral (minus-sign-digits with optional fraction). -/
inductive CTok where
  | lb
  | rb
  | num (v : ℚ)
deriving Repr, DecidableEq

theorem dropAfterDot_lt (l u : List Char) (hd : l.dropWhile isDigitC = '.' :: u) :
    (u.dropWhile isDigitC).length < l.length := by
  have h1 := len_dropWhile_le isDigitC l
  rw [hd] at h1
  have h2 := len_dropWhile_le isDigitC u
  simp only [List.length_cons] at h1
  omega

theorem dropWhile_cons_digit_le (c : Char) (t : List Char) (h : isDigitC c = true) :
    ((c :: t).dropWhile isDigitC).length ≤ t.length := by
  simp only [List.dropWhile, h]
  exact len_dropWhile_le _ _

/-- The /W body tokenizer of parseCIDWidths (font.js lines 176-177): scan
for brackets and numerals; a minus sign not followed by a digit matches
nothing and is skipped. The fuel argument is a never-exhausted termination
bound. -/
def cidTokens : ℕ → List Char → List CTok
  | 0, _ => []
  | _, [] => []
  | fuel + 1, '[' :: t => CTok.lb :: cidTokens fuel t
  | fuel + 1, ']' :: t => CTok.rb :: cidTokens fuel t
  | fuel + 1, '-' :: t =>
    if (t.headD ' ').isDigit then
      match t.dropWhile isDigitC with
      | '.' :: u =>
        CTok.num (decValue true (t.takeWhile isDigitC) (u.takeWhile isDigitC)) ::
          cidTokens fuel (u.dropWhile isDigitC)
      | _ =>
        CTok.num (decValue true (t.takeWhile isDigitC) []) ::
          cidTokens fuel (t.dropWhile isDigitC)
    else cidTokens fuel t
  | fuel + 1, c :: t =>
    if isDigitC c then
      match (c :: t).dropWhile isDigitC with
      | '.' :: u =>
        CTok.num (decValue false ((c :: t).takeWhile isDigitC) (u.takeWhile isDigitC)) ::
          cidTokens fuel (u.dropWhile isDigitC)
      | _ =>
        CTok.num (decValue false ((c :: t).takeWhile isDigitC) []) ::
          cidTokens fuel ((c :: t).dropWhile isDigitC)
    else cidTokens fuel t

/-- Object property write on the rational-keyed widths object. -/
def osetQ (m : List (ℚ × ℚ)) (k v : ℚ) : List (ℚ × ℚ) :=
  if m.any (fun p => p.1 == k) then m.map (fun p => if p.1 = k then (k, v) else p)
  else m ++ [(k, v)]

def olookupQ (m : List (ℚ × ℚ)) (k : ℚ) : Option ℚ :=
  (m.find? (fun p => p.1 == k)).map Prod.snd

/-- The range form's fill loop of parseCIDWidths: widths[c] = w for c from
cFirst to cLast stepping by one. -/
def rangeSetQ (m : List (ℚ × ℚ)) (cFirst cLast w : ℚ) : List (ℚ × ℚ) :=
  if cFirst ≤ cLast then
    (List.range ((Rat.floor (cLast - cFirst)).toNat + 1)).foldl
      (fun acc k => osetQ acc (cFirst + (k : ℚ)) w) m
  else m

/-- The bracketed-list inner loop of parseCIDWidths (font.js lines 186-192):
consume numeric tokens into consecutive codes until a closing bracket (which
is consumed) or a non-numeral (which breaks, an immediately following
closing bracket being consumed). -/
def innerList (c : ℚ) : List CTok → List (ℚ × ℚ) → (List (ℚ × ℚ)) × List CTok
  | [], acc => (acc, [])
  | CTok.rb :: rest, acc => (acc, rest)
  | CTok.num w :: rest, acc => innerList (c + 1) rest (osetQ acc c w)
  | CTok.lb :: rest, acc =>
    match rest with
    | CTok.rb :: rest2 => (acc, rest2)
    | _ => (acc, rest)

theorem innerList_rest_le (c : ℚ) (l : List CTok) (acc : List (ℚ × ℚ)) :
    (innerList c l acc).2.length ≤ l.length := by
  induction l generalizing c acc with
  | nil => simp [innerList]
  | cons t rest ih =>
    cases t with
    | rb => simp [innerList]
    | num w =>
      simp only [innerList]
      calc (innerList (c + 1) rest (osetQ acc c w)).2.length ≤ rest.length := ih _ _
        _ ≤ (CTok.num w :: rest).length := by simp
    | lb =>
      cases rest with
      | nil => simp [innerList]
      | cons t2 rest2 =>
        cases t2 <;> simp [innerList] <;> omega

/-- The outer loop of parseCIDWidths (font.js lines 182-201). A leading
token that parses to NaN (a bracket) breaks the loop; a number followed by
a bracketed list uses the inner loop; a number followed by two more numbers
fills a range; otherwise three operands are consumed and skipped (the
always-executed parseFloat of the width slot). The fuel argument is a
never-exhausted termination bound. -/
def cidLoop : ℕ → List CTok → List (ℚ × ℚ) → List (ℚ × ℚ)
  | 0, _, acc => acc
  | _, [], acc => acc
  | _, CTok.lb :: _, acc => acc
  | _, CTok.rb :: _, acc => acc
  | _, [CTok.num _], acc => acc
  | fuel + 1, CTok.num cFirst :: CTok.lb :: rest2, acc =>
    let p := innerList cFirst rest2 acc
    cidLoop fuel p.2 p.1
  | fuel + 1, CTok.num cFirst :: CTok.num cLast :: CTok.num w :: rest3, acc =>
    cidLoop fuel rest3 (rangeSetQ acc cFirst cLast w)
  | _, [CTok.num _, CTok.num _], acc => acc
  | fuel + 1, CTok.num _ :: CTok.num _ :: _ :: rest3, acc => cidLoop fuel rest3 acc
  | fuel + 1, CTok.num _ :: CTok.rb :: rest2, acc =>
    match rest2 with
    | [] => acc
    | _ :: rest3 => cidLoop fuel rest3 acc

/-- The /W body extraction of parseCIDWidths (font.js line 171): the lazy
bracketed-body regex stops at the FIRST closing bracket after the opening
one, so a nested sub-array's closing bracket terminates the match early. -/
def extractWBody (fontDict : String) : Option (List Char) :=
  scanPos (fun l =>
    match l with
    | '/' :: 'W' :: l1 =>
      (match l1.dropWhile isJsWs with
       | '[' :: l3 =>
         let body := l3.takeWhile (fun c => c != ']')
         (match l3.dropWhile (fun c => c != ']') with
          | ']' :: _ => some body
          | _ => none)
       | _ => none)
    | _ => none) fontDict.data

/-- parseCIDWidths (font.js lines 167-203): the widths object and the
default width from /DW (default 1000). -/
def parseCIDWidths (fontDict : String) : (List (ℚ × ℚ)) × ℚ :=
  let defaultWidth := (readNumber fontDict "DW").getD 1000
  match extractWBody fontDict with
  | none => ([], defaultWidth)
  | some body =>
    let toks := cidTokens ((jsTrim body).length + 1) (jsTrim body)
    (cidLoop (toks.length + 1) toks [], defaultWidth)

/-- A materialized indirect object as the font and image modules see it:
its dictionary text and its decoded stream bytes, either possibly absent. -/
structure PdfObj where
  dict : Option String := none
  decoded : Option (List ℕ) := none
deriving Repr

def objKey (n g : ℕ) : String := toString n ++ " " ++ toString g

def lookupObj (objects : List (String × PdfObj)) (k : String) : Option PdfObj :=
  (objects.find? (fun p => p.1 == k)).map Prod.snd

/-- The FontFile3 subtype sniff (font.js lines 220-224): the slice from the
FontFile3 reference lazily through the first double closing angle bracket is
searched for a /Subtype of Type1C or CIDFontType0C (with a trailing word
boundary); both give the OpenType mime, anything else the generic binary
one. -/
def ff3Slice (dict : List Char) : Option (List Char) :=
  scanPos (fun l =>
    match matchLit "/FontFile3".data l with
    | none => none
    | some l1 =>
      let l2 := l1.dropWhile isJsWs
      if l2.length = l1.length then none else
      let d1 := l2.takeWhile isDigitC
      let l3 := l2.dropWhile isDigitC
      if d1 = [] then none else
      let l4 := l3.dropWhile isJsWs
      if l4.length = l3.length then none else
      let d2 := l4.takeWhile isDigitC
      let l5 := l4.dropWhile isDigitC
      if d2 = [] then none else
      let l6 := l5.dropWhile isJsWs
      if l6.length = l5.length then none else
      match l6 with
      | 'R' :: l7 =>
        match splitAtSub ">>".data l7 with
        | some (_, after) => some (l.take (l.length - after.length))
        | none => none
      | _ => none) dict

/-- Containment test for the /Subtype /Name word-bounded regex inside the
FontFile3 slice. -/
def hasSubtypeName (slice : List Char) (nm : String) : Bool :=
  (scanPos (fun l =>
    match matchLit "/Subtype".data l with
    | none => none
    | some l1 =>
      match l1.dropWhile isJsWs with
      | '/' :: l3 =>
        match matchLit nm.data l3 with
        | some rest => if atBoundary rest then some () else none
        | none => none
      | _ => none) slice).isSome

def fontFile3Mime (dict : String) : String :=
  match ff3Slice dict.data with
  | some slice =>
    if hasSubtypeName slice "Type1C" then "font/otf"
    else if hasSubtypeName slice "CIDFontType0C" then "font/otf"
    else "application/octet-stream"
  | none => "application/octet-stream"

/-- The key-priority selection of extractEmbeddedFontBinary (font.js lines
210-228): FontFile2 first (TrueType mime), then FontFile (Type1 mime), then
FontFile3 (mime from its subtype sniff); the first key whose reference
regex matches wins. -/
def selectFontFile (dict : String) : Option ((ℕ × ℕ) × String) :=
  match readRef dict "FontFile2" with
  | some r => some (r, "font/ttf")
  | none =>
    match readRef dict "FontFile" with
    | some r => some (r, "font/type1")
    | none =>
      match readRef dict "FontFile3" with
      | some r => some (r, fontFile3Mime dict)
      | none => none

/-- extractEmbeddedFontBinary (font.js lines 206-240): select the FontFile
key, resolve the referenced object (modelled as an already-materialized
object map) and return its decoded bytes with the mime tag; absence at any
step yields no program. -/
def extractEmbeddedFontBinary (descriptorDict : Option String)
    (objects : List (String × PdfObj)) : Option (List ℕ × String) :=
  match descriptorDict with
  | none => none
  | some dict =>
    match selectFontFile dict with
    | none => none
    | some ((n, g), mime) =>
      match lookupObj objects (objKey n g) with
      | none => none
      | some o =>
        match o.decoded with
        | none => none
        | some bytes => some (bytes, mime)

end FontModule

namespace TextVector

/-- Dictionary values as parseDictTokens yields them, restricted to the
shapes the modelled loadFont fragment inspects. -/
inductive DVal where
  | ref (num gen : ℕ)
  | name (s : String)
  | num (v : ℚ)
  | other
deriving Repr, DecidableEq

def dlookup (d : List (String × DVal)) (k : String) : Option DVal :=
  (d.find? (fun p => p.1 == k)).map Prod.snd

/-- The embedded-program selection inside loadFont (src/text-vector.js lines
279-299): exactly one FontFile key is chosen from the descendant CIDFont
subtype — FontFile2 with format truetype for CIDFontType2, FontFile3 with
format opentype for CIDFontType0, no key otherwise — and there is no
fallback through the other FontFile keys. The chosen key must be present in
the parsed descriptor dictionary as a reference to an object with decoded
bytes; otherwise no program is loaded. -/
def loadFontEmbeddedProgram (cidSubtype : Option String)
    (fdDict : List (String × DVal))
    (objects : List (String × FontModule.PdfObj)) : Option (List ℕ × String) :=
  let ffKey : Option (String × String) :=
    if cidSubtype = some "CIDFontType2" then some ("FontFile2", "truetype")
    else if cidSubtype = some "CIDFontType0" then some ("FontFile3", "opentype")
    else none
  match ffKey with
  | none => none
  | some (key, fontFormat) =>
    match dlookup fdDict key with
    | some (DVal.ref n g) =>
      match FontModule.lookupObj objects (FontModule.objKey n g) with
      | some o =>
        match o.decoded with
        | some bytes => some (bytes, fontFormat)
        | none => none
      | none => none
    | _ => none

end TextVector

namespace ImageModule

open PdfJs

/-- parseNumber (src/image.js lines 68-71): first match of the regex
slash-Key whitespace+ signed-decimal word-boundary. -/
def parseNumber (src key : String) : Option ℚ :=
  scanPos (fun l =>
    match matchLit ('/' :: key.data) l with
    | none => none
    | some l1 =>
      let l2 := l1.dropWhile isJsWs
      if l2.length = l1.length then none
      else match matchNumFrac l2 with
        | none => none
        | some (q, rest) => if atBoundary rest then some q else none) src.data

/-- parseName (src/image.js lines 64-67): first match of slash-Key
whitespace* slash alnum+ word-boundary. -/
def parseName (src key : String) : Option String :=
  scanPos (fun l =>
    match matchLit ('/' :: key.data) l with
    | none => none
    | some l1 =>
      let l2 := l1.dropWhile isJsWs
      match l2 with
      | '/' :: l3 =>
        let nm := l3.takeWhile isAlnumC
        let rest := l3.dropWhile isAlnumC
        if nm = [] then none
        else if atBoundary rest then some (String.mk nm) else none
      | _ => none) src.data

/-- All word-bounded slash-names in a bracket body (the inner global regex
of parseNameArray). The fuel argument is a never-exhausted termination
bound. -/
def collectNames : ℕ → List Char → List String
  | 0, _ => []
  | _, [] => []
  | fuel + 1, '/' :: t =>
    let nm := t.takeWhile isAlnumC
    let rest := t.dropWhile isAlnumC
    if nm ≠ [] ∧ atBoundary rest then String.mk nm :: collectNames fuel rest
    else collectNames fuel t
  | fuel + 1, _ :: t => collectNames fuel t

/-- parseNameArray (src/image.js lines 57-63): first match of slash-Key
whitespace* and a non-empty bracketed body (greedy up to the first closing
bracket), then every name inside it. -/
def parseNameArray (src key : String) : Option (List String) :=
  scanPos (fun l =>
    match matchLit ('/' :: key.data) l with
    | none => none
    | some l1 =>
      match l1.dropWhile isJsWs with
      | '[' :: l3 =>
        let body := l3.takeWhile (fun c => c != ']')
        (match l3.dropWhile (fun c => c != ']') with
         | ']' :: _ => if body = [] then none else some (collectNames (body.length + 1) body)
         | _ => none)
      | _ => none) src.data

/-- JS truthiness fallback on numbers: 0 and absence fall through. -/
def jsOrNum (a b : Option ℚ) : Option ℚ :=
  match a with
  | some x => if x = 0 then b else some x
  | none => b

/-- JS truthiness fallback on names: the empty string and absence fall
through (names from the regex are never empty). -/
def jsOrName (a : Option String) (dflt : String) : String :=
  match a with
  | some s => if s = "" then dflt else s
  | none => dflt

/-- The filter-chain extraction shared by the three image entry points:
parseNameArray(Filter) falls back to a singleton of parseName(Filter), else
no filters. -/
def filtersOf (dictStr : String) : List String :=
  match parseNameArray dictStr "Filter" with
  | some fs => fs
  | none =>
    match parseName dictStr "Filter" with
    | some f => [f]
    | none => []

inductive CSpace where
  | gray
  | rgb
deriving Repr, DecidableEq

structure ImageDataRec where
  width : ℕ
  height : ℕ
  data : List ℕ
deriving Repr, DecidableEq

/-- buildImageDataFromFlate (src/image.js lines 131-142): an unsupported
bit depth THROWS (Error: only 8-bit supported); the ImageData allocation is
modelled as failing for non-positive or non-integral dimensions (the DOM
constructor rejects them after WebIDL coercion); too-short sample buffers
throw; otherwise the samples are expanded to opaque RGBA. -/
def buildImageDataFromFlate (u8 : List ℕ) (w h bpc : ℚ) (cs : CSpace) :
    Except String ImageDataRec :=
  if bpc ≠ 8 then Except.error "Only 8-bit supported for Flate"
  else if ¬ (0 < w ∧ 0 < h ∧ w.den = 1 ∧ h.den = 1) then
    Except.error "ImageData: invalid size"
  else
    let wn := w.num.toNat
    let hn := h.num.toNat
    match cs with
    | CSpace.gray =>
      if u8.length < wn * hn then Except.error "Gray too short"
      else Except.ok ⟨wn, hn,
        (List.range (wn * hn)).bind (fun i => [u8.getD i 0, u8.getD i 0, u8.getD i 0, 255])⟩
    | CSpace.rgb =>
      if u8.length < wn * hn * 3 then Except.error "RGB too short"
      else Except.ok ⟨wn, hn,
        (List.range (wn * hn)).bind
          (fun i => [u8.getD (3 * i) 0, u8.getD (3 * i + 1) 0, u8.getD (3 * i + 2) 0, 255])⟩

/-- A decoded image: a JPEG handed to the platform decoder, or a raster
buffer built from flate samples. -/
inductive ImgResult where
  | jpeg (w h : ℚ) (data : List ℕ)
  | raster (idata : ImageDataRec)
deriving Repr, DecidableEq

/-- The SOI/EOI marker validation of decodeImageObject (line 194). -/
def isJPEGData (data : List ℕ) : Bool :=
  decide (data.length > 3) && data.getD 0 0 == 0xFF && data.getD 1 0 == 0xD8
    && data.getD (data.length - 2) 0 == 0xFF && data.getD (data.length - 1) 0 == 0xD9

/-- decodeImageObject (src/image.js lines 165-216), modelled from the point
where the object's dictionary string and stream bytes have been extracted
(lines 171-172 always precede it). `inflate` is the external
fflate.unzlibSync wrapped by flateDecode, returning none on corrupt data.
Except.ok none is the "skipped / unsupported" null return; Except.error is
an uncaught throw escaping the function. -/
def decodeImageObject (dictStr : String) (data : List ℕ)
    (inflate : List ℕ → Option (List ℕ)) : Except String (Option ImgResult) :=
  let W := jsOrNum (parseNumber dictStr "Width") (parseNumber dictStr "W")
  let H := jsOrNum (parseNumber dictStr "Height") (parseNumber dictStr "H")
  match W, H with
  | some w, some h =>
    if w ≤ 0 ∨ h ≤ 0 then Except.ok none
    else
      let BPC := (jsOrNum (parseNumber dictStr "BitsPerComponent")
        (jsOrNum (parseNumber dictStr "BPC") (some 8))).getD 8
      let CS := jsOrName (parseName dictStr "ColorSpace") "DeviceRGB"
      let filters := filtersOf dictStr
      if filters.contains "DCTDecode" && isJPEGData data then
        Except.ok (some (ImgResult.jpeg w h data))
      else if filters = [] ∨ filters = ["FlateDecode"] then
        match inflate data with
        | none => Except.ok none
        | some u8 =>
          match buildImageDataFromFlate u8 w h BPC
            (if CS = "DeviceGray" then CSpace.gray else CSpace.rgb) with
          | Except.error e => Except.error e
          | Except.ok idata => Except.ok (some (ImgResult.raster idata))
      else Except.ok none
  | _, _ => Except.ok none

/-- decodeInlineImage (src/image.js lines 218-242): the dimension guard is
the JS truthiness test (!W or !H), which rejects only absent or zero
dimensions — a NEGATIVE dimension passes it and reaches
buildImageDataFromFlate. Inline DCT data is handed to the platform decoder
without marker validation. -/
def decodeInlineImage (dictStr : String) (bin : List ℕ)
    (inflate : List ℕ → Option (List ℕ)) : Except String (Option ImgResult) :=
  let W := parseNumber dictStr "W"
  let H := parseNumber dictStr "H"
  let BPC := (jsOrNum (parseNumber dictStr "BPC") (some 8)).getD 8
  let CS := jsOrName (parseName dictStr "ColorSpace") "DeviceRGB"
  let filters := filtersOf dictStr
  if W = none ∨ W = some 0 ∨ H = none ∨ H = some 0 then Except.ok none
  else
    let w := W.getD 0
    let h := H.getD 0
    if filters.contains "DCTDecode" then Except.ok (some (ImgResult.jpeg w h bin))
    else if filters = [] ∨ filters = ["FlateDecode"] then
      match inflate bin with
      | none => Except.ok none
      | some u8 =>
        match buildImageDataFromFlate u8 w h BPC
          (if CS = "DeviceGray" then CSpace.gray else CSpace.rgb) with
        | Except.error e => Except.error e
        | Except.ok idata => Except.ok (some (ImgResult.raster idata))
    else Except.ok none

end ImageModule

/-! Claim theorems. -/

section Claims

/-- The codespace-plus-bfrange CMap of the round-trip property. -/
def cmapRangeExample : String :=
  "begincodespacerange\n<0000> <FFFF>\nendcodespacerange\nbeginbfrange\n<0000> <0002> <0041>\nendbfrange"

/-- The codespace-plus-bfchar CMap of the round-trip property. -/
def cmapBfcharExample : String :=
  "begincodespacerange\n<0000> <FFFF>\nendcodespacerange\nbeginbfchar\n<0041> <0042>\nendbfchar"

/-- An image dictionary whose only filter is CCITTFaxDecode, carrying both
the XObject (Width/Height) and inline (W/H) dimension keys so that both
decoders pass their dimension guards and reach the filter dispatch. -/
def c3ccittDict : String :=
  "<< /W 3 /H 2 /Width 3 /Height 2 /Subtype /Image /Filter /CCITTFaxDecode >>"

/-- C5: for a codespace of length 2, both CMap parsers decode the bfrange
0000-0002 → 0041 to A (65), B (66), C (67) at codes 0, 1, 2, and the bfchar
0041 → 0042 to B at code 0x41; parseCMap reports code length 2 and
parseToUnicodeCMap reports 2 bytes per character. -/
theorem c5_cmap_roundtrip :
    (TextVector.parseCMap cmapRangeExample).codeLength = 2 ∧
    TextVector.getUnicode (TextVector.parseCMap cmapRangeExample) 0 = 65 ∧
    TextVector.getUnicode (TextVector.parseCMap cmapRangeExample) 1 = 66 ∧
    TextVector.getUnicode (TextVector.parseCMap cmapRangeExample) 2 = 67 ∧
    TextVector.getUnicode (TextVector.parseCMap cmapBfcharExample) 0x41 = 66 ∧
    (FontModule.parseToUnicodeCMap cmapRangeExample).map FontModule.ToUnicodeResult.bytesPerChar
      = some 2 ∧
    ((FontModule.parseToUnicodeCMap cmapRangeExample).bind
      (fun r => FontModule.tuLookup r.map 0)) = some [65] ∧
    ((FontModule.parseToUnicodeCMap cmapRangeExample).bind
      (fun r => FontModule.tuLookup r.map 1)) = some [66] ∧
    ((FontModule.parseToUnicodeCMap cmapRangeExample).bind
      (fun r => FontModule.tuLookup r.map 2)) = some [67] ∧
    ((FontModule.parseToUnicodeCMap cmapBfcharExample).bind
      (fun r => FontModule.tuLookup r.map 0x41)) = some [66] := by
  refine ⟨?_, ?_, ?_, ?_, ?_, ?_, ?_, ?_, ?_, ?_⟩ <;> with_unfolding_all rfl

/-- C6: each numeric adjustment in a TJ array inserts a kerning shift of
-(adjust / 1000) · fontSize · scale · textScale, and on the array
[(AB) -250 (CD)] with font size 10 and both scales 1 the emitted tspans are
the merged text AB, a shift of exactly 5/2 = 2.5 units, and the merged text
CD. -/
theorem c6_tj_kerning :
    (∀ (a fs sc ts : ℚ) (cf : Option TextVector.CachedFont),
      TextVector.emitTJSpans [TextVector.Tok.number a] fs sc ts cf
        = [TextVector.Span.kern (-(a / 1000) * fs * sc * ts)]) ∧
    TextVector.emitTJSpans [TextVector.Tok.string "AB", TextVector.Tok.number (-250),
        TextVector.Tok.string "CD"] 10 1 1 none
      = [TextVector.Span.text [65, 66], TextVector.Span.kern (5 / 2),
         TextVector.Span.text [67, 68]] := by
  constructor
  · intro a fs sc ts cf
    rfl
  · with_unfolding_all rfl

/-- C2: the renderer's parseWidths reads the token after a leading number
unconditionally, so the malformed width array [5] makes loadFont throw a
TypeError instead of degrading gracefully; a well-formed array is parsed
normally. -/
theorem c2_parse_widths_raises :
    TextVector.parseWidths [TextVector.Tok.number 5]
      = Except.error "TypeError: cannot read type of undefined" ∧
    TextVector.parseWidths
        [TextVector.Tok.number 1, TextVector.Tok.array [TextVector.Tok.number 500]]
      = Except.ok [(1, 500)] := by
  constructor
  · rfl
  · rfl

/-- C9: an inline image with /W -5 /H 10 passes the JS truthiness guard
(!W or !H) and reaches the ImageData allocation with a negative width,
throwing, while the XObject path's explicit guard skips the same dimensions
with a null return. -/
theorem c9_negative_inline_dimensions :
    ImageModule.decodeInlineImage "/W -5 /H 10" []
        (fun _ => some (List.replicate 200 0))
      = Except.error "ImageData: invalid size" ∧
    ImageModule.decodeImageObject "<< /Subtype /Image /W -5 /H 10 >>" []
        (fun _ => some (List.replicate 200 0))
      = Except.ok none := by
  constructor
  · with_unfolding_all rfl
  · with_unfolding_all rfl

/-- C7 is refuted on the composed pipeline: for the literal string token
written backslash-t in a content stream, the tokenizer drops the backslash
and keeps a plain letter t, and the subsequent decodePdfString leaves it
unchanged, so the pipeline never yields a tab character. -/
theorem c7_counterexample :
    TextVector.tokenize "(\\t)" = [TextVector.Tok.string "t"] ∧
    TextVector.decodePdfString "t" = "t" ∧
    ("t" : String) ≠ "\t" := by
  refine ⟨by with_unfolding_all rfl, by with_unfolding_all rfl, by decide⟩

/-- C7 (amended): decodePdfString alone implements the claimed escape
decoding — the eight character escapes, octal escapes of up to three digits,
and the backslash-newline continuation consumed with no emitted character —
but the tokenizer has already rewritten a double backslash to a single
backslash and backslash-n to a newline and dropped the backslash before any
other character, so in the composed pipeline only the newline and
parenthesis escapes survive as claimed, while the other character escapes
become plain letters, octal escapes stay literal digits, and a
line-continuation emits a newline character. -/
theorem c7_escape_decoding :
    TextVector.decodePdfString "\\n" = "\n" ∧
    TextVector.decodePdfString "\\r" = "\r" ∧
    TextVector.decodePdfString "\\t" = "\t" ∧
    TextVector.decodePdfString "\\b" = "\x08" ∧
    TextVector.decodePdfString "\\f" = "\x0c" ∧
    TextVector.decodePdfString "\\\\" = "\\" ∧
    TextVector.decodePdfString "\\(" = "(" ∧
    TextVector.decodePdfString "\\)" = ")" ∧
    TextVector.decodePdfString "\\101" = "A" ∧
    TextVector.decodePdfString "\\1011" = "A1" ∧
    TextVector.decodePdfString "\\53" = "+" ∧
    TextVector.decodePdfString "\\\nx" = "x" ∧
    TextVector.tokenize "(\\n)" = [TextVector.Tok.string "\n"] ∧
    TextVector.tokenize "(\\\\)" = [TextVector.Tok.string "\\"] ∧
    TextVector.tokenize "(\\()" = [TextVector.Tok.string "("] ∧
    TextVector.tokenize "(\\r)" = [TextVector.Tok.string "r"] ∧
    TextVector.tokenize "(\\101)" = [TextVector.Tok.string "101"] ∧
    TextVector.tokenize "(a\\\nb)" = [TextVector.Tok.string "a\nb"] := by
  refine ⟨?_, ?_, ?_, ?_, ?_, ?_, ?_, ?_, ?_, ?_, ?_, ?_, ?_, ?_, ?_, ?_, ?_, ?_⟩ <;>
    with_unfolding_all rfl

/-- C4 is refuted for parseCIDWidths: on the claimed /W array its lazy body
regex stops at the first closing bracket (the one ending the nested list),
so the 10..12 range is lost — code 10 is absent from the widths and falls
back to the default 1000 instead of mapping to 700. -/
theorem c4_counterexample :
    FontModule.parseCIDWidths "<< /DW 1000 /W [ 1 [500 600] 10 12 700 ] >>"
      = ([(1, 500), (2, 600)], 1000) ∧
    FontModule.olookupQ
        (FontModule.parseCIDWidths "<< /DW 1000 /W [ 1 [500 600] 10 12 700 ] >>").1 10
      = none := by
  refine ⟨by with_unfolding_all rfl, by with_unfolding_all rfl⟩

/-- C4 (amended): the renderer's parseWidths builds the full claimed table
from /W [ 1 [500 600] 10 12 700 ] — 1 → 500, 2 → 600, 10..12 → 700 and
every other code absent, so the default width 1000 applies — while the font
module's parseCIDWidths truncates the same body at the first closing
bracket and yields only 1 → 500 and 2 → 600 with default width 1000. -/
theorem c4_width_table :
    TextVector.parseWidths
        [TextVector.Tok.number 1,
         TextVector.Tok.array [TextVector.Tok.number 500, TextVector.Tok.number 600],
         TextVector.Tok.number 10, TextVector.Tok.number 12, TextVector.Tok.number 700]
      = Except.ok [(1, 500), (2, 600), (10, 700), (11, 700), (12, 700)] ∧
    (∀ c : ℚ, c ≠ 1 → c ≠ 2 → c ≠ 10 → c ≠ 11 → c ≠ 12 →
      TextVector.wlookup [(1, 500), (2, 600), (10, 700), (11, 700), (12, 700)] c = none) ∧
    FontModule.parseCIDWidths "<< /DW 1000 /W [ 1 [500 600] 10 12 700 ] >>"
      = ([(1, 500), (2, 600)], 1000) := by
  refine ⟨by with_unfolding_all rfl, ?_, by with_unfolding_all rfl⟩
  intro c h1 h2 h10 h11 h12
  have e1 : ((1 : ℚ) == c) = false := beq_eq_false_iff_ne.mpr (Ne.symm h1)
  have e2 : ((2 : ℚ) == c) = false := beq_eq_false_iff_ne.mpr (Ne.symm h2)
  have e10 : ((10 : ℚ) == c) = false := beq_eq_false_iff_ne.mpr (Ne.symm h10)
  have e11 : ((11 : ℚ) == c) = false := beq_eq_false_iff_ne.mpr (Ne.symm h11)
  have e12 : ((12 : ℚ) == c) = false := beq_eq_false_iff_ne.mpr (Ne.symm h12)
  simp [TextVector.wlookup, List.find?, e1, e2, e10, e11, e12]

/-- Witness for c4_width_table: code 5 is none of the mapped codes and looks
up to nothing, so the default width applies. -/
theorem c4_width_table_witness :
    ((5 : ℚ) ≠ 1 ∧ (5 : ℚ) ≠ 2 ∧ (5 : ℚ) ≠ 10 ∧ (5 : ℚ) ≠ 11 ∧ (5 : ℚ) ≠ 12) ∧
    TextVector.wlookup [(1, 500), (2, 600), (10, 700), (11, 700), (12, 700)] 5 = none :=
  ⟨⟨by norm_num, by norm_num, by norm_num, by norm_num, by norm_num⟩,
   c4_width_table.2.1 5 (by norm_num) (by norm_num) (by norm_num) (by norm_num)
     (by norm_num)⟩

/-- C8 is refuted for loadFont: given a descriptor holding only a /FontFile
reference to a decodable object and a CIDFontType2 descendant, loadFont
loads no embedded program at all (it consults only FontFile2), although the
claim says the first present key in the FontFile2, FontFile, FontFile3
order wins — as the font module's extractEmbeddedFontBinary indeed does on
the same descriptor, tagging the program as Type1. -/
theorem c8_counterexample :
    TextVector.loadFontEmbeddedProgram (some "CIDFontType2")
        [("FontFile", TextVector.DVal.ref 7 0)]
        [("7 0", { dict := some "<< /Length 4 >>", decoded := some [1, 2, 3, 4] })]
      = none ∧
    FontModule.extractEmbeddedFontBinary (some "<< /FontFile 7 0 R >>")
        [("7 0", { dict := some "<< /Length 4 >>", decoded := some [1, 2, 3, 4] })]
      = some ([1, 2, 3, 4], "font/type1") := by
  refine ⟨by with_unfolding_all rfl, by with_unfolding_all rfl⟩

/-- C8 (amended): the font module's extractEmbeddedFontBinary tries the
descriptor keys in the fixed order FontFile2 (tag font/ttf), FontFile
(tag font/type1), FontFile3 (tag font/otf when its sniffed /Subtype is
Type1C or CIDFontType0C, else application/octet-stream), first present key
winning, and yields no embedded program when none is present; the
renderer's loadFont instead derives a single candidate key from the
descendant CIDFont subtype — FontFile2/truetype for CIDFontType2,
FontFile3/opentype for CIDFontType0, and no key (hence never any program)
for any other subtype — with no fallback through the other keys. -/
theorem c8_font_program_order :
    (∀ (dict : String) (r : ℕ × ℕ), FontModule.readRef dict "FontFile2" = some r →
      FontModule.selectFontFile dict = some (r, "font/ttf")) ∧
    (∀ (dict : String) (r : ℕ × ℕ), FontModule.readRef dict "FontFile2" = none →
      FontModule.readRef dict "FontFile" = some r →
      FontModule.selectFontFile dict = some (r, "font/type1")) ∧
    (∀ (dict : String) (r : ℕ × ℕ), FontModule.readRef dict "FontFile2" = none →
      FontModule.readRef dict "FontFile" = none →
      FontModule.readRef dict "FontFile3" = some r →
      FontModule.selectFontFile dict = some (r, FontModule.fontFile3Mime dict)) ∧
    (∀ dict : String, FontModule.readRef dict "FontFile2" = none →
      FontModule.readRef dict "FontFile" = none →
      FontModule.readRef dict "FontFile3" = none →
      ∀ objects, FontModule.extractEmbeddedFontBinary (some dict) objects = none) ∧
    (∀ (cidSubtype : Option String) (fdDict : List (String × TextVector.DVal))
        (objects : List (String × FontModule.PdfObj)),
      cidSubtype ≠ some "CIDFontType2" → cidSubtype ≠ some "CIDFontType0" →
      TextVector.loadFontEmbeddedProgram cidSubtype fdDict objects = none) := by
  refine ⟨?_, ?_, ?_, ?_, ?_⟩
  · intro dict r h
    simp [FontModule.selectFontFile, h]
  · intro dict r h2 h
    simp [FontModule.selectFontFile, h2, h]
  · intro dict r h2 h1 h3
    simp [FontModule.selectFontFile, h2, h1, h3]
  · intro dict h2 h1 h3 objects
    simp [FontModule.extractEmbeddedFontBinary, FontModule.selectFontFile, h2, h1, h3]
  · intro cidSubtype fdDict objects hc2 hc0
    simp [TextVector.loadFontEmbeddedProgram, hc2, hc0]

/-- Witness for c8_font_program_order: a descriptor with a FontFile2
reference selects it with the TrueType tag. -/
theorem c8_font_program_order_witness :
    FontModule.readRef "<< /FontFile2 5 0 R >>" "FontFile2" = some (5, 0) ∧
    FontModule.selectFontFile "<< /FontFile2 5 0 R >>" = some ((5, 0), "font/ttf") :=
  ⟨by with_unfolding_all rfl,
   c8_font_program_order.1 "<< /FontFile2 5 0 R >>" (5, 0) (by with_unfolding_all rfl)⟩

/-- C3 is refuted for unsupported bit depths: a flate image XObject with
BitsPerComponent 4 whose stream inflates successfully makes
buildImageDataFromFlate throw an Error that decodeImageObject does not
catch, instead of returning the null "unsupported" result. -/
theorem c3_counterexample :
    ImageModule.decodeImageObject
        "<< /Width 2 /Height 2 /BitsPerComponent 4 /Filter /FlateDecode >>"
        [0] (fun _ => some (List.replicate 12 0))
      = Except.error "Only 8-bit supported for Flate" := by
  with_unfolding_all rfl

/-- C3 (amended): an image XObject or inline image whose filter chain is
unsupported — it does not contain DCTDecode and is neither empty nor the
single FlateDecode, e.g. CCITTFaxDecode — yields the null "unsupported"
result without raising, for EVERY dictionary, stream data and inflate
behavior, in both decodeImageObject and decodeInlineImage; but within a
supported flate chain an unsupported bit depth makes buildImageDataFromFlate
throw an uncaught Error. -/
theorem c3_unsupported_filter_skips :
    (∀ (dictStr : String) (data : List ℕ) (inflate : List ℕ → Option (List ℕ)),
      (ImageModule.filtersOf dictStr).contains "DCTDecode" = false →
      ImageModule.filtersOf dictStr ≠ [] →
      ImageModule.filtersOf dictStr ≠ ["FlateDecode"] →
      ImageModule.decodeImageObject dictStr data inflate = Except.ok none ∧
      ImageModule.decodeInlineImage dictStr data inflate = Except.ok none) ∧
    (∀ (u8 : List ℕ) (w h bpc : ℚ) (cs : ImageModule.CSpace), bpc ≠ 8 →
      ImageModule.buildImageDataFromFlate u8 w h bpc cs
        = Except.error "Only 8-bit supported for Flate") := by
  constructor
  · intro dictStr data inflate hdct hne hnf
    constructor
    · unfold ImageModule.decodeImageObject
      dsimp only
      split
      · split
        · rfl
        · rw [hdct]
          simp only [Bool.false_and, Bool.false_eq_true, if_false]
          rw [if_neg]
          exact fun hc => hc.elim hne hnf
      · rfl
    · unfold ImageModule.decodeInlineImage
      dsimp only
      split
      · rfl
      · rw [hdct]
        simp only [Bool.false_eq_true, if_false]
        rw [if_neg]
        exact fun hc => hc.elim hne hnf
  · intro u8 w h bpc cs hbpc
    simp [ImageModule.buildImageDataFromFlate, hbpc]

/-- Witness for c3_unsupported_filter_skips: the CCITTFaxDecode dictionary
satisfies the unsupported-chain hypotheses, both decoders skip it with the
null result, and bit depth 4 is not 8 and makes the flate expander throw. -/
theorem c3_unsupported_filter_skips_witness :
    ((ImageModule.filtersOf c3ccittDict).contains "DCTDecode" = false ∧
     ImageModule.filtersOf c3ccittDict ≠ [] ∧
     ImageModule.filtersOf c3ccittDict ≠ ["FlateDecode"] ∧ (4 : ℚ) ≠ 8) ∧
    (ImageModule.decodeImageObject c3ccittDict [0] some = Except.ok none ∧
     ImageModule.decodeInlineImage c3ccittDict [0] some = Except.ok none) ∧
    ImageModule.buildImageDataFromFlate [] 2 2 4 ImageModule.CSpace.rgb
      = Except.error "Only 8-bit supported for Flate" :=
  ⟨⟨by with_unfolding_all rfl, by with_unfolding_all decide,
    by with_unfolding_all decide, by norm_num⟩,
   c3_unsupported_filter_skips.1 c3ccittDict [0] some
     (by with_unfolding_all rfl) (by with_unfolding_all decide)
     (by with_unfolding_all decide),
   c3_unsupported_filter_skips.2 [] 2 2 4 ImageModule.CSpace.rgb (by norm_num)⟩

theorem tvExec_cons (op : TextVector.TVOp) (ops : List TextVector.TVOp)
    (x : TextVector.TVState × List TextVector.TVState) :
    TextVector.tvExec (op :: ops) x = TextVector.tvExec ops (TextVector.tvStep op x) := rfl

theorem tvExec_append (l1 l2 : List TextVector.TVOp)
    (x : TextVector.TVState × List TextVector.TVState) :
    TextVector.tvExec (l1 ++ l2) x = TextVector.tvExec l2 (TextVector.tvExec l1 x) :=
  List.foldl_append _ _ _ _

theorem imgExec_cons (op : ImageModule.ImgOp) (ops : List ImageModule.ImgOp)
    (x : TextVector.Mat × List TextVector.Mat) :
    ImageModule.imgExec (op :: ops) x = ImageModule.imgExec ops (ImageModule.imgStep op x) :=
  rfl

theorem imgExec_append (l1 l2 : List ImageModule.ImgOp)
    (x : TextVector.Mat × List TextVector.Mat) :
    ImageModule.imgExec (l1 ++ l2) x = ImageModule.imgExec l2 (ImageModule.imgExec l1 x) :=
  List.foldl_append _ _ _ _

theorem tvStep_Q_restore (s snap : TextVector.TVState) (st : List TextVector.TVState)
    (h1 : snap.strokeCS ≠ "") (h2 : snap.nonStrokeCS ≠ "") :
    TextVector.tvStep TextVector.TVOp.Q (s, snap :: st) = (snap, st) := by
  simp only [TextVector.tvStep, ne_eq, h1, not_false_eq_true, if_true, h2]

/-- C1 is refuted on the image pass: executing cm and then Q from the
initial state (identity CTM, empty stack) resets the CTM back to the
identity, although the claim says a Q with an empty stack is a no-op that
leaves the graphics state, including the CTM, unchanged in both passes. -/
theorem c1_counterexample :
    ImageModule.imgExec [ImageModule.ImgOp.cm ⟨2, 0, 0, 2, 0, 0⟩]
        (ImageModule.idMat, []) = (⟨2, 0, 0, 2, 0, 0⟩, []) ∧
    ImageModule.imgExec [ImageModule.ImgOp.cm ⟨2, 0, 0, 2, 0, 0⟩, ImageModule.ImgOp.Q]
        (ImageModule.idMat, []) = (ImageModule.idMat, []) ∧
    (⟨2, 0, 0, 2, 0, 0⟩ : TextVector.Mat) ≠ ImageModule.idMat := by
  refine ⟨by with_unfolding_all rfl, by with_unfolding_all rfl, by decide⟩

/-- C1 (amended): in the text/vector state machine a Q with an empty stack
is a no-op on the graphics state, and a Q with a non-empty stack — in
particular the Q closing a matching q whose intervening operators return
the stack to its pushed form — restores exactly the pushed snapshot,
provided the snapshot's colour-space tags are non-empty strings (the
restore guards those two fields by JS truthiness). In the image-pass CTM
tracker a Q with a non-empty stack likewise restores the pushed CTM, but a
Q with an EMPTY stack resets the CTM to the identity matrix instead of
leaving it unchanged. -/
theorem c1_state_stack :
    (∀ s : TextVector.TVState,
      TextVector.tvStep TextVector.TVOp.Q (s, []) = (s, [])) ∧
    (∀ (s snap : TextVector.TVState) (st : List TextVector.TVState),
      snap.strokeCS ≠ "" → snap.nonStrokeCS ≠ "" →
      TextVector.tvStep TextVector.TVOp.Q (s, snap :: st) = (snap, st)) ∧
    (∀ (mid : List TextVector.TVOp) (s s₂ : TextVector.TVState)
        (st : List TextVector.TVState),
      TextVector.tvExec mid (s, s :: st) = (s₂, s :: st) →
      s.strokeCS ≠ "" → s.nonStrokeCS ≠ "" →
      TextVector.tvExec (TextVector.TVOp.q :: mid ++ [TextVector.TVOp.Q]) (s, st)
        = (s, st)) ∧
    (∀ (c snap : TextVector.Mat) (st : List TextVector.Mat),
      ImageModule.imgStep ImageModule.ImgOp.Q (c, snap :: st) = (snap, st)) ∧
    (∀ c : TextVector.Mat,
      ImageModule.imgStep ImageModule.ImgOp.Q (c, []) = (ImageModule.idMat, [])) ∧
    (∀ (mid : List ImageModule.ImgOp) (c c₂ : TextVector.Mat)
        (st : List TextVector.Mat),
      ImageModule.imgExec mid (c, c :: st) = (c₂, c :: st) →
      ImageModule.imgExec (ImageModule.ImgOp.q :: mid ++ [ImageModule.ImgOp.Q]) (c, st)
        = (c, st)) := by
  refine ⟨fun s => rfl, tvStep_Q_restore, ?_, fun c snap st => rfl, fun c => rfl, ?_⟩
  · intro mid s s₂ st h h1 h2
    calc TextVector.tvExec (TextVector.TVOp.q :: (mid ++ [TextVector.TVOp.Q])) (s, st)
        = TextVector.tvExec (mid ++ [TextVector.TVOp.Q]) (s, s :: st) := rfl
      _ = TextVector.tvExec [TextVector.TVOp.Q] (TextVector.tvExec mid (s, s :: st)) :=
          tvExec_append _ _ _
      _ = TextVector.tvExec [TextVector.TVOp.Q] (s₂, s :: st) := by rw [h]
      _ = (s, st) := tvStep_Q_restore s₂ s st h1 h2
  · intro mid c c₂ st h
    calc ImageModule.imgExec (ImageModule.ImgOp.q :: (mid ++ [ImageModule.ImgOp.Q])) (c, st)
        = ImageModule.imgExec (mid ++ [ImageModule.ImgOp.Q]) (c, c :: st) := rfl
      _ = ImageModule.imgExec [ImageModule.ImgOp.Q] (ImageModule.imgExec mid (c, c :: st)) :=
          imgExec_append _ _ _
      _ = ImageModule.imgExec [ImageModule.ImgOp.Q] (c₂, c :: st) := by rw [h]
      _ = (c, st) := rfl

/-- Witness for c1_state_stack: a pushed snapshot with the default
colour-space tags is restored exactly, both around a line-width change in
the text machine and around a cm in the image pass. -/
theorem c1_state_stack_witness :
    TextVector.tvStep TextVector.TVOp.Q
        (TextVector.initTVState,
         ({ TextVector.initTVState with lw := 5 } : TextVector.TVState) :: [])
      = ({ TextVector.initTVState with lw := 5 }, []) ∧
    TextVector.tvExec (TextVector.TVOp.q :: [TextVector.TVOp.w 5] ++ [TextVector.TVOp.Q])
        (TextVector.initTVState, []) = (TextVector.initTVState, []) ∧
    ImageModule.imgExec
        (ImageModule.ImgOp.q :: [ImageModule.ImgOp.cm ⟨2, 0, 0, 2, 0, 0⟩]
          ++ [ImageModule.ImgOp.Q])
        (ImageModule.idMat, []) = (ImageModule.idMat, []) :=
  ⟨c1_state_stack.2.1 TextVector.initTVState
      ({ TextVector.initTVState with lw := 5 }) [] (by decide) (by decide),
   c1_state_stack.2.2.1 [TextVector.TVOp.w 5] TextVector.initTVState
      ({ TextVector.initTVState with lw := 5 }) [] (by with_unfolding_all rfl)
      (by decide) (by decide),
   c1_state_stack.2.2.2.2.2 [ImageModule.ImgOp.cm ⟨2, 0, 0, 2, 0, 0⟩] ImageModule.idMat
      (ImageModule.mult ImageModule.idMat ⟨2, 0, 0, 2, 0, 0⟩) []
      (by with_unfolding_all rfl)⟩

theorem getD_replicate_zero (p i : ℕ) : (List.replicate p 0).getD i 0 = 0 := by
  induction p generalizing i with
  | zero => simp [List.getD]
  | succ p ih =>
    cases i with
    | zero => simp [List.replicate]
    | succ i => simpa [List.replicate] using ih i

theorem getD_append_zeros (bytes : List ℕ) (p i : ℕ) :
    (bytes ++ List.replicate p 0).getD i 0 = bytes.getD i 0 := by
  induction bytes generalizing i with
  | nil => simpa using getD_replicate_zero p i
  | cons b bs ih =>
    cases i with
    | zero => simp [List.getD]
    | succ i => simpa [List.getD] using ih i

theorem cidOf_append_zeros (bytes : List ℕ) (p j cl : ℕ) :
    TextVector.cidOf (bytes ++ List.replicate p 0) j cl = TextVector.cidOf bytes j cl := by
  unfold TextVector.cidOf
  congr 1
  funext cid k
  rw [getD_append_zeros]

theorem compositeCids_nil (cl : ℕ) : TextVector.compositeCids [] cl = [] := by
  rw [TextVector.compositeCids]
  simp

theorem compositeCids_length_aux (cl : ℕ) (hcl : 1 ≤ cl) :
    ∀ (n : ℕ) (bytes : List ℕ), bytes.length ≤ n →
      (TextVector.compositeCids bytes cl).length = (bytes.length + cl - 1) / cl := by
  intro n
  induction n with
  | zero =>
    intro bytes hb
    have hbe : bytes = [] := List.eq_nil_of_length_eq_zero (Nat.le_zero.mp hb)
    subst hbe
    rw [compositeCids_nil]
    simp only [List.length_nil, Nat.zero_add]
    exact (Nat.div_eq_of_lt (by omega)).symm
  | succ n ih =>
    intro bytes hb
    by_cases hbe : bytes = []
    · subst hbe
      rw [compositeCids_nil]
      simp only [List.length_nil, Nat.zero_add]
      exact (Nat.div_eq_of_lt (by omega)).symm
    · have hL1 : 1 ≤ bytes.length := by
        have := List.length_pos.mpr hbe
        omega
      rw [TextVector.compositeCids, dif_neg (by push_neg; exact ⟨by omega, hbe⟩)]
      simp only [List.length_cons]
      have hlen : (bytes.drop cl).length = bytes.length - cl := List.length_drop cl bytes
      have ihd := ih (bytes.drop cl) (by rw [hlen]; omega)
      rw [ihd, hlen]
      by_cases hcase : cl ≤ bytes.length
      · rw [show bytes.length - cl + cl - 1 = bytes.length - 1 by omega]
        rw [show bytes.length + cl - 1 = (bytes.length - 1) + cl by omega]
        rw [Nat.add_div_right _ (by omega : 0 < cl)]
      · rw [show bytes.length - cl + cl - 1 = cl - 1 by omega]
        rw [Nat.div_eq_of_lt (by omega : cl - 1 < cl)]
        have hlo : 1 * cl ≤ bytes.length + cl - 1 := by omega
        have hhi : bytes.length + cl - 1 < (1 + 1) * cl := by omega
        rw [Nat.div_eq_of_lt_le hlo hhi]

theorem compositeCids_pad_aux (cl : ℕ) (hcl : 1 ≤ cl) :
    ∀ (n : ℕ) (bytes : List ℕ), bytes.length ≤ n →
      TextVector.compositeCids bytes cl
        = TextVector.compositeCids
            (bytes ++ List.replicate ((cl - bytes.length % cl) % cl) 0) cl := by
  intro n
  induction n with
  | zero =>
    intro bytes hb
    have hbe : bytes = [] := List.eq_nil_of_length_eq_zero (Nat.le_zero.mp hb)
    subst hbe
    simp [Nat.mod_self]
  | succ n ih =>
    intro bytes hb
    by_cases hbe : bytes = []
    · subst hbe
      simp [Nat.mod_self]
    · have hL1 : 1 ≤ bytes.length := by
        have := List.length_pos.mpr hbe
        omega
      have hzne : bytes ++ List.replicate ((cl - bytes.length % cl) % cl) 0 ≠ [] := by
        simp [hbe]
      rw [TextVector.compositeCids, dif_neg (by push_neg; exact ⟨by omega, hbe⟩)]
      conv_rhs => rw [TextVector.compositeCids]
      rw [dif_neg (by push_neg; exact ⟨by omega, hzne⟩)]
      rw [cidOf_append_zeros]
      congr 1
      by_cases hcase : cl ≤ bytes.length
      · rw [List.drop_append_eq_append_drop]
        rw [show cl - bytes.length = 0 by omega, List.drop_zero]
        have hmod : bytes.length % cl = (bytes.length - cl) % cl :=
          Nat.mod_eq_sub_mod hcase
        have ihd := ih (bytes.drop cl) (by rw [List.length_drop]; omega)
        rw [List.length_drop] at ihd
        rw [← hmod] at ihd
        exact ihd
      · have hmodL : bytes.length % cl = bytes.length := Nat.mod_eq_of_lt (by omega)
        have hp : (cl - bytes.length % cl) % cl = cl - bytes.length := by
          rw [hmodL]
          exact Nat.mod_eq_of_lt (by omega)
        rw [List.drop_eq_nil_of_le (by omega : bytes.length ≤ cl), compositeCids_nil]
        rw [List.drop_eq_nil_of_le
          (by simp [hp]; omega : (bytes ++ List.replicate ((cl - bytes.length % cl) % cl) 0).length ≤ cl)]
        rw [compositeCids_nil]

/-- C10: the composite decode of getTextFromToken is total — for any byte
buffer and any code length at least 1, it yields exactly
ceil(length / codeLength) decoded characters, and the decoded codes are
unchanged by zero-padding the buffer to a multiple of the code length
(out-of-range reads are bytes[j+k] || 0 = 0), so the final partial chunk's
code treats the missing trailing bytes as zero and nothing is read past the
end of the buffer. -/
theorem c10_composite_decode_total (bytes : List ℕ) (cl : ℕ) (hcl : 1 ≤ cl) :
    (∀ (fam : String) (tu : Option TextVector.CMapResult),
      (TextVector.decodeBytes bytes
          (some { fontFamily := fam, isComposite := true, codeLength := cl,
                  toUnicode := tu })).length
        = (bytes.length + cl - 1) / cl) ∧
    TextVector.compositeCids bytes cl
      = TextVector.compositeCids
          (bytes ++ List.replicate ((cl - bytes.length % cl) % cl) 0) cl := by
  constructor
  · intro fam tu
    simp only [TextVector.decodeBytes, if_true, List.length_map]
    exact compositeCids_length_aux cl hcl bytes.length bytes (le_refl _)
  · exact compositeCids_pad_aux cl hcl bytes.length bytes (le_refl _)

/-- Witness for c10_composite_decode_total at a three-byte buffer with code
length 2: two characters are decoded, and padding a zero byte changes
nothing. -/
theorem c10_composite_decode_total_witness :
    1 ≤ 2 ∧
    (TextVector.decodeBytes [1, 2, 3]
        (some { fontFamily := "F", isComposite := true, codeLength := 2,
                toUnicode := none })).length = (3 + 2 - 1) / 2 :=
  ⟨by norm_num,
   (c10_composite_decode_total [1, 2, 3] 2 (by norm_num)).1 "F" none⟩

end Claims
